import Mathlib

/-!
Gherkin AST builder (cucumber/gherkin-go, astbuilder.go)

A shallow embedding of the stack-based AST builder: the generic tree node
(astNode), the builder operations (Reset, Build, StartRule, EndRule,
GetGherkinDocument), the node transformer (transformNode) and the table, tag
and step assembly helpers, followed by theorems about them.

Conventions of the embedding.
* A Go run-time fault (nil dereference, index out of range, failed type
  assertion without comma-ok) is a value of `Panic`; every function that can
  fault returns `Except Panic _`.
* `interface{}` values stored in a node are values of `Obj`; `Obj.nil` is the
  nil interface.
* Go `int` fields are `Int`; the conversion `uint32(x)` is `x % 2^32`.
* Slices are lists in index order; the builder stack grows at the end. The
  two message slices that the builder can leave nil are a `GoSlice`.
-/

set_option autoImplicit false

namespace Gherkin

/-! ## Enumerations declared by the parser -/

/-- Modelled from the spec: the closed enumeration of leaf-token categories
(type TokenType); its declaration lives in the generated parser, which is not
among the source files. The constructors are the categories the builder source
names (TokenTypeComment, TokenTypeStepLine, ...) plus the remaining lexical
categories. -/
inductive TokenType
  | None
  | EOF
  | Empty
  | Comment
  | TagLine
  | FeatureLine
  | RuleLine
  | BackgroundLine
  | ScenarioLine
  | ExamplesLine
  | StepLine
  | DocStringSeparator
  | TableRow
  | Language
  | Other
  deriving DecidableEq, Repr

/-- Modelled from the spec: the closed enumeration of rule categories (type
RuleType), declared in the generated parser. It has one category per token
category (under which leaves are filed) followed by the structural grammar
rules the transformer dispatches on. -/
inductive RuleType
  | None
  | EOF
  | Empty
  | Comment
  | TagLine
  | FeatureLine
  | RuleLine
  | BackgroundLine
  | ScenarioLine
  | ExamplesLine
  | StepLine
  | DocStringSeparator
  | TableRow
  | Language
  | Other
  | GherkinDocument
  | Feature
  | FeatureHeader
  | Rule
  | RuleHeader
  | Background
  | ScenarioDefinition
  | Scenario
  | ExamplesDefinition
  | Examples
  | ExamplesTable
  | Step
  | StepArg
  | DataTable
  | DocString
  | Tags
  | DescriptionHelper
  | Description
  deriving DecidableEq, Repr

/-- Modelled from the spec: the method TokenType.RuleType(), "the rule category
its token category maps to", declared in the generated parser. Each token
category maps to the rule category of the same name. -/
def TokenType.RuleType : TokenType → RuleType
  | .None => .None
  | .EOF => .EOF
  | .Empty => .Empty
  | .Comment => .Comment
  | .TagLine => .TagLine
  | .FeatureLine => .FeatureLine
  | .RuleLine => .RuleLine
  | .BackgroundLine => .BackgroundLine
  | .ScenarioLine => .ScenarioLine
  | .ExamplesLine => .ExamplesLine
  | .StepLine => .StepLine
  | .DocStringSeparator => .DocStringSeparator
  | .TableRow => .TableRow
  | .Language => .Language
  | .Other => .Other

/-! ## Tokens -/

/-- Modelled from the spec: the source location of a token (type Location,
declared with the scanner): a line and a column. Both are Go int: the builder
converts them with uint32(...) and fills them from int(...). -/
structure Location where
  Line : Int
  Column : Int
  deriving DecidableEq, Repr

/-- Modelled from the spec: one sub-item of a row-shaped token (type LineSpan):
a column offset and a text. -/
structure LineSpan where
  Column : Int
  Text : String
  deriving DecidableEq, Repr

/-- Modelled from the spec: a leaf token (type Token, declared with the
scanner): category, location, keyword, text, ordered items and dialect tag. -/
structure Token where
  Typ : TokenType
  Keyword : String
  Text : String
  Items : List LineSpan
  GherkinDialect : String
  Location : Location
  deriving DecidableEq, Repr

/-- Modelled from the spec: the located error value (type parseError, declared
with the parser): a message and a location. -/
structure ParseError where
  msg : String
  loc : Location
  deriving DecidableEq, Repr

/-- A Go run-time fault. -/
inductive Panic
  | nilDereference
  | indexOutOfRange
  | typeAssertion
  deriving DecidableEq, Repr

/-! ## The message schema (package messages)

Only the fields the builder writes are kept. A pointer that the builder can
leave nil is an `Option`; the two slices the builder declares with var and only
appends to (the children of a Feature and of a Rule) are a `GoSlice`, which
keeps the nil slice apart from an allocated one; the other slices are always
allocated and are lists. -/

/-- A slice field of the message schema that the builder can leave nil: the
nil slice (a variable declared with var and never appended to), or an allocated
slice with its elements. -/
inductive GoSlice (α : Type)
  | nil
  | mk (elems : List α)
  deriving DecidableEq, Repr

/-- The elements of a slice; the nil slice has none. -/
def GoSlice.toList {α : Type} : GoSlice α → List α
  | .nil => []
  | .mk elems => elems

/-- The built-in append(s, a): the result is allocated, also when s is nil. -/
def GoSlice.append {α : Type} (s : GoSlice α) (a : α) : GoSlice α :=
  .mk (s.toList ++ [a])

/-- A range loop that appends each element of l to s, in order. -/
def GoSlice.appendAll {α : Type} (s : GoSlice α) (l : List α) : GoSlice α :=
  l.foldl GoSlice.append s

namespace messages

structure Location where
  Line : Nat
  Column : Nat
  deriving DecidableEq, Repr

structure Comment where
  Location : Location
  Text : String
  deriving DecidableEq, Repr

structure Tag where
  Location : Location
  Name : String
  deriving DecidableEq, Repr

structure TableCell where
  Location : Location
  Value : String
  deriving DecidableEq, Repr

structure TableRow where
  Location : Location
  Cells : List TableCell
  deriving DecidableEq, Repr

structure DataTable where
  Location : Location
  Rows : List TableRow
  deriving DecidableEq, Repr

structure DocString where
  Location : Location
  ContentType : String
  Content : String
  Delimiter : String
  deriving DecidableEq, Repr

/-- The oneof field Step.Argument. -/
inductive StepArgument
  | DataTable (v : DataTable)
  | DocString (v : DocString)
  deriving DecidableEq, Repr

structure Step where
  Location : Location
  Keyword : String
  Text : String
  Argument : Option StepArgument
  deriving DecidableEq, Repr

structure Examples where
  Tags : List Tag
  Location : Location
  Keyword : String
  Name : String
  Description : String
  TableHeader : Option TableRow
  TableBody : List TableRow
  deriving DecidableEq, Repr

structure Background where
  Location : Location
  Keyword : String
  Name : String
  Description : String
  Steps : List (Option Step)
  deriving DecidableEq, Repr

structure Scenario where
  Tags : List Tag
  Location : Location
  Keyword : String
  Name : String
  Description : String
  Steps : List (Option Step)
  Examples : List (Option Examples)
  deriving DecidableEq, Repr

/-- The oneof field RuleChild.Value. -/
inductive RuleChild
  | Background (v : Background)
  | Scenario (v : Scenario)
  deriving DecidableEq, Repr

structure Rule where
  Location : Location
  Keyword : String
  Name : String
  Description : String
  Children : GoSlice RuleChild
  deriving DecidableEq, Repr

/-- The oneof field FeatureChild.Value. -/
inductive FeatureChild
  | Background (v : Background)
  | Scenario (v : Scenario)
  | Rule (v : Rule)
  deriving DecidableEq, Repr

structure Feature where
  Tags : List Tag
  Location : Location
  Language : String
  Keyword : String
  Name : String
  Description : String
  Children : GoSlice FeatureChild
  deriving DecidableEq, Repr

structure GherkinDocument where
  Uri : String
  Feature : Option Feature
  Comments : List Comment
  deriving DecidableEq, Repr

end messages

/-! ## The generic tree node -/

mutual
/-- A value of type interface{} held in a node: the nil interface, a leaf
token, a generic sub-node, or one of the typed values transformNode returns. -/
inductive Obj
  | nil
  | token (t : Token)
  | node (n : AstNode)
  | step (v : messages.Step)
  | docString (v : messages.DocString)
  | dataTable (v : messages.DataTable)
  | background (v : messages.Background)
  | scenario (v : messages.Scenario)
  | examples (v : messages.Examples)
  | tableRows (v : List messages.TableRow)
  | str (v : String)
  | feature (v : messages.Feature)
  | rule (v : messages.Rule)
  | document (v : messages.GherkinDocument)
/-- The struct astNode: a rule category and the map subNodes from rule category
to the children filed under it, kept as an association list with one entry per
key. -/
inductive AstNode
  | mk (ruleType : RuleType) (subNodes : List (RuleType × List Obj))
end

/-- The field ruleType. -/
def AstNode.ruleType : AstNode → RuleType
  | .mk rt _ => rt

/-- The field subNodes. -/
def AstNode.subNodes : AstNode → List (RuleType × List Obj)
  | .mk _ m => m

/-- The map read subNodes[rt] with the comma-ok flag: the slice stored under
the key, or none when the key is absent. -/
def mapGet : List (RuleType × List Obj) → RuleType → Option (List Obj)
  | [], _ => none
  | (k, v) :: rest, rt => if k = rt then some v else mapGet rest rt

/-- The map write subNodes[rt] = v. -/
def mapSet : List (RuleType × List Obj) → RuleType → List Obj → List (RuleType × List Obj)
  | [], rt, v => [(rt, v)]
  | (k, w) :: rest, rt, v => if k = rt then (k, v) :: rest else (k, w) :: mapSet rest rt v

/-- The function newAstNode. -/
def newAstNode (rt : RuleType) : AstNode := .mk rt []

/-- The method astNode.add: append obj to the slice under rt (a missing key
reads as the nil slice). -/
def AstNode.add (a : AstNode) (rt : RuleType) (obj : Obj) : AstNode :=
  .mk a.ruleType (mapSet a.subNodes rt ((mapGet a.subNodes rt).getD [] ++ [obj]))

/-- The method astNode.getSingle: the first child under rt, or the nil
interface. -/
def AstNode.getSingle (a : AstNode) (rt : RuleType) : Obj :=
  match mapGet a.subNodes rt with
  | some (x :: _) => x
  | _ => .nil

/-- The method astNode.getItems: all children under rt, in order. -/
def AstNode.getItems (a : AstNode) (rt : RuleType) : List Obj :=
  match mapGet a.subNodes rt with
  | some val => val
  | none => []

/-- The type assertion obj.(*Token) with comma-ok. -/
def Obj.asToken : Obj → Option Token
  | .token t => some t
  | _ => none

/-- The type assertion obj.(*astNode) with comma-ok. -/
def Obj.asNode : Obj → Option AstNode
  | .node n => some n
  | _ => none

/-- The type assertion obj.(string) with comma-ok dropped: the zero value ""
on a mismatch. -/
def Obj.asString : Obj → String
  | .str s => s
  | _ => ""

/-- The method astNode.getToken. -/
def AstNode.getToken (a : AstNode) (tt : TokenType) : Option Token :=
  (a.getSingle tt.RuleType).asToken

/-- The method astNode.getTokens: the children under the token's rule category
that are tokens, in order. -/
def AstNode.getTokens (a : AstNode) (tt : TokenType) : List Token :=
  (a.getItems tt.RuleType).filterMap Obj.asToken

/-- Dereferencing a pointer that may be nil. -/
def deref {α : Type} : Option α → Except Panic α
  | some a => pure a
  | none => throw Panic.nilDereference

/-- The conversion uint32(x) of a Go int. -/
def uint32 (x : Int) : Nat := (x % 4294967296).toNat

/-- The function astLocation, on a non-nil token. -/
def astLocation (t : Token) : messages.Location :=
  { Line := uint32 t.Location.Line, Column := uint32 t.Location.Column }

/-! ## Table, step, examples and tag helpers -/

/-- The function astTableCells. -/
def astTableCells (t : Token) : List messages.TableCell :=
  t.Items.map fun item =>
    { Location := { Line := uint32 t.Location.Line, Column := uint32 item.Column },
      Value := item.Text }

/-- The function ensureCellCount: with two rows or more, the first row whose
cell count differs from that of rows[0] gives the error. -/
def ensureCellCount (rows : List messages.TableRow) : Option ParseError :=
  match rows with
  | [] => none
  | [_] => none
  | r0 :: _ :: _ =>
    match rows.find? (fun r => decide (r0.Cells.length ≠ r.Cells.length)) with
    | some r =>
      some { msg := "inconsistent cell count within the table",
             loc := { Line := (r.Location.Line : Int), Column := (r.Location.Column : Int) } }
    | none => none

/-- The function astTableRows: the rows and the result of ensureCellCount. -/
def astTableRows (t : AstNode) : List messages.TableRow × Option ParseError :=
  let tokens := t.getTokens .TableRow
  let rows : List messages.TableRow :=
    tokens.map fun tok => { Location := astLocation tok, Cells := astTableCells tok }
  (rows, ensureCellCount rows)

/-- The type assertion obj.(*messages.Step) with comma-ok dropped. -/
def Obj.asStep : Obj → Option messages.Step
  | .step v => some v
  | _ => none

/-- The type assertion obj.(*messages.Examples) with comma-ok dropped. -/
def Obj.asExamples : Obj → Option messages.Examples
  | .examples v => some v
  | _ => none

/-- The type assertion obj.(*messages.Background) with comma-ok dropped. -/
def Obj.asBackground : Obj → Option messages.Background
  | .background v => some v
  | _ => none

/-- The type assertion obj.(*messages.Feature) with comma-ok dropped. -/
def Obj.asFeature : Obj → Option messages.Feature
  | .feature v => some v
  | _ => none

/-- The type assertion obj.(*messages.Scenario) without comma-ok: a mismatch
faults. -/
def Obj.mustScenario : Obj → Except Panic messages.Scenario
  | .scenario v => pure v
  | _ => throw Panic.typeAssertion

/-- The type assertion obj.(*messages.Rule) without comma-ok: a mismatch
faults. -/
def Obj.mustRule : Obj → Except Panic messages.Rule
  | .rule v => pure v
  | _ => throw Panic.typeAssertion

/-- A range loop that appends one element per item, in order, and stops at the
first fault. -/
def forEach {α β : Type} (f : α → Except Panic β) : List α → Except Panic (List β)
  | [] => pure []
  | a :: rest => do
    let b ← f a
    let bs ← forEach f rest
    pure (b :: bs)

/-- The function astSteps. -/
def astSteps (t : AstNode) : List (Option messages.Step) :=
  (t.getItems .Step).map Obj.asStep

/-- The function astExamples. -/
def astExamples (t : AstNode) : List (Option messages.Examples) :=
  (t.getItems .ExamplesDefinition).map Obj.asExamples

/-- The function astTags. -/
def astTags (node : AstNode) : List messages.Tag :=
  match (node.getSingle .Tags).asNode with
  | none => []
  | some tagsNode =>
    (tagsNode.getTokens .TagLine).flatMap fun token =>
      token.Items.map fun item =>
        { Location := { Line := uint32 token.Location.Line, Column := uint32 item.Column },
          Name := item.Text }

/-! ## Strings -/

/-- The predicate unicode.IsSpace of the Go library, which strings.TrimSpace
uses: the white-space code points. -/
def isSpace (c : Char) : Bool :=
  let n := c.toNat
  n = 9 || n = 10 || n = 11 || n = 12 || n = 13 || n = 32 || n = 133 || n = 160 ||
  n = 5760 || (8192 ≤ n && n ≤ 8202) || n = 8232 || n = 8233 || n = 8239 ||
  n = 8287 || n = 12288

/-- The function strings.TrimSpace of the Go library: the text without its
leading and trailing white space. -/
def TrimSpace (s : String) : String :=
  ⟨((s.data.dropWhile isSpace).reverse.dropWhile isSpace).reverse⟩

/-- The function strings.Join of the Go library. -/
def Join : List String → String → String
  | [], _ => ""
  | [a], _ => a
  | a :: b :: rest, sep => a ++ sep ++ Join (b :: rest) sep

/-- The loop of the Description case that moves end down from len(lineTokens)
while the text of lineTokens[end-1] is blank; the argument is the current value
of end. -/
def trimmedEnd (lineTokens : List Token) : Nat → Nat
  | 0 => 0
  | e + 1 =>
    match lineTokens[e]? with
    | some tok => if TrimSpace tok.Text = "" then trimmedEnd lineTokens e else e + 1
    | none => e + 1

/-- The loop of the DocString case that builds the content: a newline before
every line but the first. -/
def docStringText (lineTokens : List Token) : String :=
  lineTokens.enum.foldl
    (fun text p => (if p.1 > 0 then text ++ "\n" else text) ++ p.2.Text) ""

/-! ## The builder -/

/-- The struct astBuilder. The stack is in slice order: the current node is the
last element. -/
structure AstBuilder where
  stack : List AstNode
  comments : List messages.Comment
  uri : String

/-- The method astBuilder.push. -/
def AstBuilder.push (t : AstBuilder) (n : AstNode) : AstBuilder :=
  { t with stack := t.stack ++ [n] }

/-- The method astBuilder.pop: faults on the empty stack. -/
def AstBuilder.pop (t : AstBuilder) : Except Panic (AstNode × AstBuilder) :=
  match t.stack.getLast? with
  | some x => pure (x, { t with stack := t.stack.dropLast })
  | none => throw Panic.indexOutOfRange

/-- The method astBuilder.currentNode: nil on the empty stack. -/
def AstBuilder.currentNode (t : AstBuilder) : Option AstNode :=
  t.stack.getLast?

/-- The statement t.currentNode().add(rt, obj): the node on top of the stack is
updated in place; a nil current node faults. -/
def AstBuilder.addToCurrent (t : AstBuilder) (rt : RuleType) (obj : Obj) :
    Except Panic AstBuilder :=
  match t.currentNode with
  | some n => pure { t with stack := t.stack.dropLast ++ [n.add rt obj] }
  | none => throw Panic.nilDereference

/-- The method astBuilder.Reset. -/
def AstBuilder.Reset (t : AstBuilder) : AstBuilder :=
  ({ t with comments := [], stack := [] } : AstBuilder).push (newAstNode .None)

/-- The function NewAstBuilder. -/
def NewAstBuilder (uri : String) : AstBuilder :=
  ({ stack := [], comments := [], uri := uri } : AstBuilder).push (newAstNode .None)

/-- The method astBuilder.transformNode. The builder is only read (comments and
uri, in the GherkinDocument case). -/
def AstBuilder.transformNode (t : AstBuilder) (node : AstNode) :
    Except Panic (Obj × Option ParseError) :=
  match node.ruleType with
  | .Step => do
    let stepLine ← deref (node.getToken .StepLine)
    let step : messages.Step :=
      { Location := astLocation stepLine, Keyword := stepLine.Keyword,
        Text := stepLine.Text, Argument := none }
    match node.getSingle .DataTable with
    | .nil =>
      match node.getSingle .DocString with
      | .nil => pure (.step step, none)
      | .docString v => pure (.step { step with Argument := some (.DocString v) }, none)
      | _ => throw Panic.typeAssertion
    | .dataTable v => pure (.step { step with Argument := some (.DataTable v) }, none)
    | _ => throw Panic.typeAssertion
  | .DocString => do
    let separatorToken := node.getToken .DocStringSeparator
    let lineTokens := node.getTokens .Other
    let text := docStringText lineTokens
    let sep ← deref separatorToken
    pure (.docString
      { Location := astLocation sep, ContentType := sep.Text, Content := text,
        Delimiter := sep.Keyword }, none)
  | .DataTable =>
    let (rows, err) := astTableRows node
    match rows with
    | [] => throw Panic.indexOutOfRange
    | r0 :: _ => pure (.dataTable { Location := r0.Location, Rows := rows }, err)
  | .Background => do
    let backgroundLine ← deref (node.getToken .BackgroundLine)
    let description := (node.getSingle .Description).asString
    pure (.background
      { Location := astLocation backgroundLine, Keyword := backgroundLine.Keyword,
        Name := backgroundLine.Text, Description := description,
        Steps := astSteps node }, none)
  | .ScenarioDefinition => do
    let tags := astTags node
    let scenarioNode ← deref (node.getSingle .Scenario).asNode
    let scenarioLine := scenarioNode.getToken .ScenarioLine
    let description := (scenarioNode.getSingle .Description).asString
    let scenarioLine ← deref scenarioLine
    pure (.scenario
      { Tags := tags, Location := astLocation scenarioLine,
        Keyword := scenarioLine.Keyword, Name := scenarioLine.Text,
        Description := description, Steps := astSteps scenarioNode,
        Examples := astExamples scenarioNode }, none)
  | .ExamplesDefinition => do
    let tags := astTags node
    let examplesNode ← deref (node.getSingle .Examples).asNode
    let examplesLine := examplesNode.getToken .ExamplesLine
    let description := (examplesNode.getSingle .Description).asString
    let examplesTable := examplesNode.getSingle .ExamplesTable
    let examplesLine ← deref examplesLine
    let ex : messages.Examples :=
      { Tags := tags, Location := astLocation examplesLine,
        Keyword := examplesLine.Keyword, Name := examplesLine.Text,
        Description := description, TableHeader := none, TableBody := [] }
    match examplesTable with
    | .nil => pure (.examples ex, none)
    | .tableRows (r0 :: rest) =>
      pure (.examples { ex with TableHeader := some r0, TableBody := rest }, none)
    | _ => throw Panic.indexOutOfRange
  | .ExamplesTable =>
    let (allRows, err) := astTableRows node
    pure (.tableRows allRows, err)
  | .Description =>
    let lineTokens := node.getTokens .Other
    let stop := trimmedEnd lineTokens lineTokens.length
    let desc := (lineTokens.take stop).map fun tok => tok.Text
    pure (.str (Join desc "\n"), none)
  | .Feature =>
    match (node.getSingle .FeatureHeader).asNode with
    | none => pure (.nil, none)
    | some header =>
      let tags := astTags header
      match header.getToken .FeatureLine with
      | none => pure (.nil, none)
      | some featureLine => do
        let background := (node.getSingle .Background).asBackground
        let children0 : GoSlice messages.FeatureChild :=
          match background with
          | some bg => GoSlice.nil.append (.Background bg)
          | none => .nil
        let scenarios ← forEach
          (fun o => do let scenario ← o.mustScenario; pure (messages.FeatureChild.Scenario scenario))
          (node.getItems .ScenarioDefinition)
        let rules ← forEach
          (fun o => do let rule ← o.mustRule; pure (messages.FeatureChild.Rule rule))
          (node.getItems .Rule)
        let description := (header.getSingle .Description).asString
        pure (.feature
          { Tags := tags, Location := astLocation featureLine,
            Language := featureLine.GherkinDialect, Keyword := featureLine.Keyword,
            Name := featureLine.Text, Description := description,
            Children := (children0.appendAll scenarios).appendAll rules }, none)
  | .Rule =>
    match (node.getSingle .RuleHeader).asNode with
    | none => pure (.nil, none)
    | some header =>
      match header.getToken .RuleLine with
      | none => pure (.nil, none)
      | some ruleLine => do
        let background := (node.getSingle .Background).asBackground
        let children0 : GoSlice messages.RuleChild :=
          match background with
          | some bg => GoSlice.nil.append (.Background bg)
          | none => .nil
        let scenarios ← forEach
          (fun o => do let scenario ← o.mustScenario; pure (messages.RuleChild.Scenario scenario))
          (node.getItems .ScenarioDefinition)
        let description := (header.getSingle .Description).asString
        pure (.rule
          { Location := astLocation ruleLine, Keyword := ruleLine.Keyword,
            Name := ruleLine.Text, Description := description,
            Children := children0.appendAll scenarios }, none)
  | .GherkinDocument =>
    let feature := (node.getSingle .Feature).asFeature
    pure (.document { Uri := t.uri, Feature := feature, Comments := t.comments }, none)
  | _ => pure (.node node, none)

/-- The method astBuilder.Build: the new builder state with the pair the
method returns. -/
def AstBuilder.Build (t : AstBuilder) (tok : Token) :
    Except Panic (AstBuilder × Bool × Option ParseError) :=
  if tok.Typ = .Comment then
    let comment : messages.Comment := { Location := astLocation tok, Text := tok.Text }
    pure ({ t with comments := t.comments ++ [comment] }, true, none)
  else do
    let t1 ← t.addToCurrent tok.Typ.RuleType (.token tok)
    pure (t1, true, none)

/-- The method astBuilder.StartRule. -/
def AstBuilder.StartRule (t : AstBuilder) (r : RuleType) :
    Except Panic (AstBuilder × Bool × Option ParseError) :=
  pure (t.push (newAstNode r), true, none)

/-- The method astBuilder.EndRule. The argument r is not used by the body. -/
def AstBuilder.EndRule (t : AstBuilder) (_r : RuleType) :
    Except Panic (AstBuilder × Bool × Option ParseError) := do
  let (node, t1) ← t.pop
  let (transformedNode, err) ← t1.transformNode node
  let t2 ← t1.addToCurrent node.ruleType transformedNode
  pure (t2, true, err)

/-- The method astBuilder.GetGherkinDocument: faults on the empty stack. -/
def AstBuilder.GetGherkinDocument (t : AstBuilder) :
    Except Panic (Option messages.GherkinDocument) := do
  let cur ← deref t.currentNode
  match cur.getSingle .GherkinDocument with
  | .document val => pure (some val)
  | _ => pure none

/-! ## Auxiliary definitions used in the statements -/

/-- The value lies in the range of uint32. -/
def InUint32 (x : Int) : Prop := 0 ≤ x ∧ x < 4294967296

instance (x : Int) : Decidable (InUint32 x) := by unfold InUint32; infer_instance

/-- The TableRow that the loop of astTableRows builds from one table-row
leaf. -/
def rowOfToken (tok : Token) : messages.TableRow :=
  { Location := astLocation tok, Cells := astTableCells tok }

/-- The error value ensureCellCount builds for an offending row. -/
def cellCountError (r : messages.TableRow) : ParseError :=
  { msg := "inconsistent cell count within the table",
    loc := { Line := (r.Location.Line : Int), Column := (r.Location.Column : Int) } }

/-! ## Example inputs -/

/-- A table-row leaf at the given location with k items; item i is at column
col + 2 + 4 * i and has the text "x". -/
def exampleRow (line col : Int) (k : Nat) : Token :=
  { Typ := .TableRow, Keyword := "|", Text := "",
    Items := (List.range k).map fun i => ⟨col + 2 + 4 * (i : Int), "x"⟩,
    GherkinDialect := "", Location := ⟨line, col⟩ }

/-- A DataTable node holding three table-row leaves with 2, 2 and 3 items. -/
def exampleTable223 : AstNode :=
  (((newAstNode .DataTable).add .TableRow (.token (exampleRow 4 7 2))).add
    .TableRow (.token (exampleRow 5 7 2))).add .TableRow (.token (exampleRow 6 7 3))

/-- A builder whose stack is the root, an open Step node and, on top, the
DataTable node with rows of 2, 2 and 3 cells. -/
def exampleBuilderTable : AstBuilder :=
  { stack := [newAstNode .None, newAstNode .Step, exampleTable223],
    comments := [], uri := "u" }

/-! ## Driving the builder -/

/-- One call of the parser on the builder. -/
inductive Event
  | build (tok : Token)
  | startRule (r : RuleType)
  | endRule (r : RuleType)

/-- The builder method an event calls. -/
def AstBuilder.handle (t : AstBuilder) : Event →
    Except Panic (AstBuilder × Bool × Option ParseError)
  | .build tok => t.Build tok
  | .startRule r => t.StartRule r
  | .endRule r => t.EndRule r

/-- The events are handled in order; the result is the final builder with the
pairs the calls returned, in order. A fault ends the run. -/
def AstBuilder.run (t : AstBuilder) : List Event →
    Except Panic (AstBuilder × List (Bool × Option ParseError))
  | [] => pure (t, [])
  | ev :: rest => do
    let (t1, res) ← t.handle ev
    let (t2, results) ← AstBuilder.run t1 rest
    pure (t2, res :: results)

/-- The depth-first event sequence of a feature "F" with one scenario "S" with
one step "a"; the three leaves are the feature line, the scenario line and the
step line. -/
def exampleEvents (featureLine scenarioLine stepLine : Token) : List Event :=
  [.startRule .GherkinDocument, .startRule .Feature, .startRule .FeatureHeader,
   .build featureLine, .endRule .FeatureHeader,
   .startRule .ScenarioDefinition, .startRule .Scenario, .build scenarioLine,
   .startRule .Step, .build stepLine, .endRule .Step,
   .endRule .Scenario, .endRule .ScenarioDefinition, .endRule .Feature,
   .endRule .GherkinDocument]

/-- The Document built from the minimal feature: the feature of the feature
line with one scenario of the scenario line with one step of the step line. -/
def exampleDocument (u : String) (featureLine scenarioLine stepLine : Token) :
    messages.GherkinDocument :=
  { Uri := u, Comments := [],
    Feature := some
      { Tags := [], Location := astLocation featureLine,
        Language := featureLine.GherkinDialect,
        Keyword := featureLine.Keyword, Name := featureLine.Text, Description := "",
        Children := .mk [.Scenario
          { Tags := [], Location := astLocation scenarioLine, Keyword := scenarioLine.Keyword,
            Name := scenarioLine.Text, Description := "", Examples := [],
            Steps := [some
              { Location := astLocation stepLine, Keyword := stepLine.Keyword,
                Text := stepLine.Text, Argument := none }] }] } }

/-- The TableCell that the loop of astTableCells builds from one item of a
table-row leaf. -/
def cellOfItem (tok : Token) (item : LineSpan) : messages.TableCell :=
  { Location := { Line := uint32 tok.Location.Line, Column := uint32 item.Column },
    Value := item.Text }

/-- An ExamplesTable node with one table-row leaf on line 2^32 + 5. -/
def exampleFarRowNode : AstNode :=
  (newAstNode .ExamplesTable).add .TableRow (.token (exampleRow 4294967301 3 1))

/-- The text is empty after white-space trimming. -/
def isBlank (s : String) : Prop := TrimSpace s = ""

instance (s : String) : Decidable (isBlank s) := by unfold isBlank; infer_instance

/-- An "other line" leaf with the given text. -/
def exampleLine (line : Int) (text : String) : Token :=
  { Typ := .Other, Keyword := "", Text := text, Items := [], GherkinDialect := "",
    Location := ⟨line, 1⟩ }

/-- A Description node with the line leaves "a", "", "b", "", "". -/
def exampleDescription : AstNode :=
  (((((newAstNode .Description).add .Other (.token (exampleLine 2 "a"))).add
    .Other (.token (exampleLine 3 ""))).add .Other (.token (exampleLine 4 "b"))).add
    .Other (.token (exampleLine 5 ""))).add .Other (.token (exampleLine 6 ""))

/-- A leaf of the given category, keyword and text at the given line, column
1, without items. -/
def exampleLeaf (tt : TokenType) (line : Int) (keyword text : String) : Token :=
  { Typ := tt, Keyword := keyword, Text := text, Items := [], GherkinDialect := "en",
    Location := ⟨line, 1⟩ }

/-- A comment leaf on line 2^32 + 5, column -1. -/
def exampleFarComment : Token :=
  { Typ := .Comment, Keyword := "", Text := "# c", Items := [], GherkinDialect := "",
    Location := ⟨4294967301, -1⟩ }

/-- The event sequence of a feature with a Background of two steps, with one
comment leaf before the feature and one between the two Step closures. -/
def exampleCommentEvents : List Event :=
  [.startRule .GherkinDocument,
   .build (exampleLeaf .Comment 1 "" "# first"),
   .startRule .Feature, .startRule .FeatureHeader,
   .build (exampleLeaf .FeatureLine 2 "Feature" "F"), .endRule .FeatureHeader,
   .startRule .Background, .build (exampleLeaf .BackgroundLine 3 "Background" ""),
   .startRule .Step, .build (exampleLeaf .StepLine 4 "Given " "a"), .endRule .Step,
   .build (exampleLeaf .Comment 5 "" "# second"),
   .startRule .Step, .build (exampleLeaf .StepLine 6 "And " "b"), .endRule .Step,
   .endRule .Background, .endRule .Feature, .endRule .GherkinDocument]

/-- The Document of exampleCommentEvents: the Background has the two steps and
the two comments are in arrival order. -/
def exampleCommentDocument : messages.GherkinDocument :=
  { Uri := "u",
    Comments := [{ Location := ⟨1, 1⟩, Text := "# first" },
                 { Location := ⟨5, 1⟩, Text := "# second" }],
    Feature := some
      { Tags := [], Location := ⟨2, 1⟩, Language := "en", Keyword := "Feature", Name := "F",
        Description := "",
        Children := .mk [.Background
          { Location := ⟨3, 1⟩, Keyword := "Background", Name := "", Description := "",
            Steps := [some { Location := ⟨4, 1⟩, Keyword := "Given ", Text := "a",
                             Argument := none },
                      some { Location := ⟨6, 1⟩, Keyword := "And ", Text := "b",
                             Argument := none }] }] } }

/-- The event sequence of an ExamplesDefinition whose table has two table-row
leaves with 2 items each. -/
def exampleExamplesEvents : List Event :=
  [.startRule .ExamplesDefinition, .startRule .Examples,
   .build (exampleLeaf .ExamplesLine 7 "Examples" "E"),
   .startRule .ExamplesTable, .build (exampleRow 8 5 2), .build (exampleRow 9 5 2),
   .endRule .ExamplesTable, .endRule .Examples, .endRule .ExamplesDefinition]

/-- An ExamplesDefinition node whose Examples sub-node has an examples line and
no table. -/
def exampleExamplesNoTable : AstNode :=
  (newAstNode .ExamplesDefinition).add .Examples
    (.node ((newAstNode .Examples).add .ExamplesLine
      (.token (exampleLeaf .ExamplesLine 7 "Examples" "E"))))

/-- A Background value with the given name and no steps. -/
def exampleBackground (name : String) : messages.Background :=
  { Location := ⟨3, 1⟩, Keyword := "Background", Name := name, Description := "", Steps := [] }

/-- A Scenario value with the given name and no steps. -/
def exampleScenario (name : String) : messages.Scenario :=
  { Tags := [], Location := ⟨5, 1⟩, Keyword := "Scenario", Name := name, Description := "",
    Steps := [], Examples := [] }

/-- A Rule value with the given name and no children. -/
def exampleRule (name : String) : messages.Rule :=
  { Location := ⟨9, 1⟩, Keyword := "Rule", Name := name, Description := "",
    Children := .nil }

/-- A FeatureHeader sub-node with a feature line. -/
def exampleFeatureHeader : AstNode :=
  (newAstNode .FeatureHeader).add .FeatureLine
    (.token (exampleLeaf .FeatureLine 2 "Feature" "F"))

/-- A Feature node to which a rule, a scenario, two backgrounds and a second
scenario were added, in this order, after the header. -/
def exampleFeatureMixed : AstNode :=
  ((((((newAstNode .Feature).add .FeatureHeader (.node exampleFeatureHeader)).add
    .Rule (.rule (exampleRule "r"))).add
    .ScenarioDefinition (.scenario (exampleScenario "s1"))).add
    .Background (.background (exampleBackground "b1"))).add
    .Background (.background (exampleBackground "b2"))).add
    .ScenarioDefinition (.scenario (exampleScenario "s2"))

/-- One call on the builder: an event of the parser, or Reset. -/
inductive Op
  | event (e : Event)
  | reset

/-- The builder after one call; the pair an event returns is dropped. -/
def AstBuilder.apply (t : AstBuilder) : Op → Except Panic AstBuilder
  | .event e => do
    let (t1, _) ← t.handle e
    pure t1
  | .reset => pure t.Reset

/-- The builder after a sequence of calls. A fault ends the sequence. -/
def AstBuilder.applyAll (t : AstBuilder) : List Op → Except Panic AstBuilder
  | [] => pure t
  | op :: rest => do
    let t1 ← t.apply op
    AstBuilder.applyAll t1 rest

/-- The Comments of the comment leaves in a sequence of calls that come after
the last Reset, in arrival order, after the comments acc accepted before the
sequence. -/
def commentsAfter (acc : List messages.Comment) : List Op → List messages.Comment
  | [] => acc
  | .reset :: rest => commentsAfter [] rest
  | .event (.build tok) :: rest =>
    commentsAfter
      (if tok.Typ = .Comment then acc ++ [{ Location := astLocation tok, Text := tok.Text }]
       else acc) rest
  | .event (.startRule _) :: rest => commentsAfter acc rest
  | .event (.endRule _) :: rest => commentsAfter acc rest

/-- Two GherkinDocument rules opened above the root, the first one closed, with
a comment leaf between them. -/
def exampleTwoDocuments : List Op :=
  [.event (.startRule .GherkinDocument), .event (.endRule .GherkinDocument),
   .event (.build (exampleLeaf .Comment 1 "" "# late")),
   .event (.startRule .GherkinDocument)]

/-- A GherkinDocument rule opened above the root after one comment leaf. -/
def exampleOneDocument : List Op :=
  [.event (.build (exampleLeaf .Comment 1 "" "# first")),
   .event (.startRule .GherkinDocument)]

/-- A Feature node without FeatureHeader that holds a background, a scenario
and a rule. -/
def exampleFeatureNoHeader : AstNode :=
  (((newAstNode .Feature).add .Background (.background (exampleBackground "b1"))).add
    .ScenarioDefinition (.scenario (exampleScenario "s1"))).add .Rule (.rule (exampleRule "r"))

/-- A Rule node whose RuleHeader sub-node has no rule line, and that holds a
scenario. -/
def exampleRuleNoLine : AstNode :=
  ((newAstNode .Rule).add .RuleHeader (.node (newAstNode .RuleHeader))).add
    .ScenarioDefinition (.scenario (exampleScenario "s1"))

/-! ## What the transformer needs of a node -/

/-- The value is a Scenario. -/
def Obj.isScenario : Obj → Bool
  | .scenario _ => true
  | _ => false

/-- The value is a Rule. -/
def Obj.isRule : Obj → Bool
  | .rule _ => true
  | _ => false

/-- The children a node must hold for transformNode to reach its return
statement, per rule category: the line leaf that is dereferenced, a first row
where rows[0] is read, and children of the asserted type where the assertion
has no comma-ok. -/
def transformable (node : AstNode) : Bool :=
  match node.ruleType with
  | .Step =>
    (node.getToken .StepLine).isSome &&
      (match node.getSingle .DataTable with
       | .dataTable _ => true
       | .nil =>
         (match node.getSingle .DocString with
          | .nil => true
          | .docString _ => true
          | _ => false)
       | _ => false)
  | .DocString => (node.getToken .DocStringSeparator).isSome
  | .DataTable => !(node.getTokens .TableRow).isEmpty
  | .Background => (node.getToken .BackgroundLine).isSome
  | .ScenarioDefinition =>
    (match (node.getSingle .Scenario).asNode with
     | some scenarioNode => (scenarioNode.getToken .ScenarioLine).isSome
     | none => false)
  | .ExamplesDefinition =>
    (match (node.getSingle .Examples).asNode with
     | some examplesNode =>
       (examplesNode.getToken .ExamplesLine).isSome &&
         (match examplesNode.getSingle .ExamplesTable with
          | .nil => true
          | .tableRows (_ :: _) => true
          | _ => false)
     | none => false)
  | .Feature =>
    (match (node.getSingle .FeatureHeader).asNode with
     | none => true
     | some header =>
       (match header.getToken .FeatureLine with
        | none => true
        | some _ =>
          (node.getItems .ScenarioDefinition).all Obj.isScenario &&
            (node.getItems .Rule).all Obj.isRule))
  | .Rule =>
    (match (node.getSingle .RuleHeader).asNode with
     | none => true
     | some header =>
       (match header.getToken .RuleLine with
        | none => true
        | some _ => (node.getItems .ScenarioDefinition).all Obj.isScenario))
  | _ => true

/-- A Step node with a step line and, filed under the DataTable category, a
DocString value. -/
def exampleStepWrongArgument : AstNode :=
  ((newAstNode .Step).add .StepLine
      (.token { Typ := .StepLine, Keyword := "Given ", Text := "a", Items := [],
                GherkinDialect := "", Location := ⟨4, 5⟩ })).add
    .DataTable (.docString
      { Location := ⟨5, 7⟩, ContentType := "", Content := "d", Delimiter := "\"\"\"" })

/-- The table-row leaves are rectangular: any two have the same number of
items. -/
def rectangular (toks : List Token) : Prop :=
  ∀ a ∈ toks, ∀ b ∈ toks, a.Items.length = b.Items.length

instance (toks : List Token) : Decidable (rectangular toks) := by
  unfold rectangular; infer_instance

/-- The event sequence of a feature with one scenario with one step whose
DataTable has rows of 2, 2 and 3 cells. -/
def exampleIrregularEvents : List Event :=
  [.startRule .GherkinDocument, .startRule .Feature, .startRule .FeatureHeader,
   .build (exampleLeaf .FeatureLine 1 "Feature" "F"), .endRule .FeatureHeader,
   .startRule .ScenarioDefinition, .startRule .Scenario,
   .build (exampleLeaf .ScenarioLine 2 "Scenario" "S"),
   .startRule .Step, .build (exampleLeaf .StepLine 3 "Given " "a"),
   .startRule .DataTable, .build (exampleRow 4 7 2), .build (exampleRow 5 7 2),
   .build (exampleRow 6 7 3), .endRule .DataTable,
   .endRule .Step, .endRule .Scenario, .endRule .ScenarioDefinition, .endRule .Feature,
   .endRule .GherkinDocument]

/-! ## Counting the events of a run -/

/-- The number of StartRule events. -/
def countStart : List Event → Nat
  | [] => 0
  | .startRule _ :: rest => countStart rest + 1
  | _ :: rest => countStart rest

/-- The number of EndRule events. -/
def countEnd : List Event → Nat
  | [] => 0
  | .endRule _ :: rest => countEnd rest + 1
  | _ :: rest => countEnd rest

/-- No transformation faults along the run: at every EndRule the run reaches,
the transformation of the popped node returns. -/
def transformsReturn : AstBuilder → List Event → Prop
  | _, [] => True
  | t, ev :: rest =>
    (∀ r node t1, ev = .endRule r → t.pop = .ok (node, t1) →
      ∃ res, t1.transformNode node = .ok res) ∧
    (∀ t1 res, t.handle ev = .ok (t1, res) → transformsReturn t1 rest)

/-- A Step node whose step line is on line 2^32 + 5. -/
def exampleFarStep : AstNode :=
  (newAstNode .Step).add .StepLine
    (.token { Typ := .StepLine, Keyword := "Given ", Text := "a", Items := [],
              GherkinDialect := "", Location := ⟨4294967301, 5⟩ })

/-- A DocString value with the given content. -/
def exampleDocString (content : String) : messages.DocString :=
  { Location := ⟨5, 7⟩, ContentType := "", Content := content, Delimiter := "\"\"\"" }

/-- A DataTable value with one row of one cell with the given value. -/
def exampleDataTable (value : String) : messages.DataTable :=
  { Location := ⟨5, 7⟩,
    Rows := [{ Location := ⟨5, 7⟩, Cells := [{ Location := ⟨5, 9⟩, Value := value }] }] }

/-- A Step node to which a DocString, then two DataTables were added after the
step line. -/
def exampleStepBothArguments : AstNode :=
  ((((newAstNode .Step).add .StepLine (.token (exampleLeaf .StepLine 4 "Given " "a"))).add
    .DocString (.docString (exampleDocString "d"))).add
    .DataTable (.dataTable (exampleDataTable "t1"))).add
    .DataTable (.dataTable (exampleDataTable "t2"))

/-- The Tag that the loops of astTags build from one item of a tag-line
leaf. -/
def tagOfItem (token : Token) (item : LineSpan) : messages.Tag :=
  { Location := { Line := uint32 token.Location.Line, Column := uint32 item.Column },
    Name := item.Text }

/-- A tag-line leaf on the given line with the given tag names, at columns 1,
11, 21, ... -/
def exampleTagLine (line : Int) (names : List String) : Token :=
  { Typ := .TagLine, Keyword := "", Text := "",
    Items := names.enum.map fun p => ⟨1 + 10 * (p.1 : Int), p.2⟩,
    GherkinDialect := "", Location := ⟨line, 1⟩ }

/-- A Tags sub-node with one tag line. -/
def exampleTagsNode (line : Int) (names : List String) : AstNode :=
  (newAstNode .Tags).add .TagLine (.token (exampleTagLine line names))

/-- A ScenarioDefinition node with the tags "@a" and "@b" on the wrapper and
a Tags child "@inner" filed inside the inner Scenario sub-node. -/
def exampleTaggedScenario : AstNode :=
  ((newAstNode .ScenarioDefinition).add .Tags (.node (exampleTagsNode 2 ["@a", "@b"]))).add
    .Scenario (.node
      (((newAstNode .Scenario).add .Tags (.node (exampleTagsNode 3 ["@inner"]))).add
        .ScenarioLine (.token (exampleLeaf .ScenarioLine 3 "Scenario" "S"))))

/-- An ExamplesDefinition node without tags on the wrapper and a Tags child
"@inner" filed inside the inner Examples sub-node. -/
def exampleTaggedExamples : AstNode :=
  (newAstNode .ExamplesDefinition).add .Examples (.node
    (((newAstNode .Examples).add .Tags (.node (exampleTagsNode 7 ["@inner"]))).add
      .ExamplesLine (.token (exampleLeaf .ExamplesLine 7 "Examples" "E"))))

/-- A node whose Tags sub-node has a tag line on line 2^32 + 5 with one tag at
column 1. -/
def exampleFarTagNode : AstNode :=
  (newAstNode .FeatureHeader).add .Tags (.node (exampleTagsNode 4294967301 ["@a"]))

/-! ## The message stream (messages.go)

The reads of the source stream and of the files, the marshalling and the
writes to the output stream are outside the embedding: the stream is the list
of the wrappers it decodes to before EOF, a file read is a function of the
path, and with an output stream a message is only marshalled (the bytes written
are not kept). -/

namespace messages

structure Source where
  Uri : String
  Data : String
  deriving DecidableEq, Repr

structure PickleStep where
  Text : String
  Locations : List Location
  deriving DecidableEq, Repr

structure Pickle where
  Id : String
  Steps : List PickleStep
  deriving DecidableEq, Repr

inductive Status
  | PASSED
  | FAILED
  deriving DecidableEq, Repr

/-- The type Wrapper with the oneof field Message. -/
inductive Wrapper
  | Source (v : Source)
  | GherkinDocument (v : GherkinDocument)
  | Pickle (v : Pickle)
  | Attachment (data : String) (uri : String) (location : Location)
  | TestCaseStarted (pickleId : String)
  | TestStepStarted (pickleId : String) (index : Nat)
  | TestStepFinished (pickleId : String) (index : Nat) (status : Status) (message : String)
  | TestCaseFinished (pickleId : String)
  deriving DecidableEq, Repr

end messages

/-- One element of the error list parseErrors: a *parseError or an error of
another type. -/
inductive ErrorItem
  | parseError (e : ParseError)
  | other (text : String)
  deriving DecidableEq, Repr

/-- The error value the parser returns: nil, a parseErrors list, or an error of
another type. -/
inductive ParserError
  | none
  | parseErrors (errs : List ErrorItem)
  | other (text : String)
  deriving DecidableEq, Repr

/-- The functions of the repository and of the libraries that Messages calls
and that are not among the source files, taken as parameters:
ParseGherkinDocumentForLanguage (data, uri, language), Pickles, the method
parseError.Error, the test strings.Contains(strings.ToLower(text), "failed"),
ioutil.ReadFile, and the two marshallers (the error of a failed
marshalling). -/
structure Collaborators where
  parse : String → String → String → Option messages.GherkinDocument × ParserError
  Pickles : messages.GherkinDocument → List messages.Pickle
  errorText : ParseError → String
  containsFailed : String → Bool
  readFile : String → Except String String
  marshalJson : messages.Wrapper → Option String
  marshalProto : messages.Wrapper → Option String

/-- The closure handleMessage: the new result and the error it returns. The
argument err is the variable err of Messages, which the closure reads. -/
def handleMessage (env : Collaborators) (outStream : Bool) (json : Bool) (err : Option String)
    (result : List messages.Wrapper) (message : messages.Wrapper) :
    List messages.Wrapper × Option String :=
  if outStream then
    if json then
      match env.marshalJson message with
      | some e => (result, some e)
      | none => (result, err)
    else
      match env.marshalProto message with
      | some e => (result, some e)
      | none => (result, err)
  else (result ++ [message], err)

/-- The method parseError.asAttachment. -/
def asAttachment (env : Collaborators) (a : ParseError) (uri : String) : messages.Wrapper :=
  .Attachment (env.errorText a) uri { Line := uint32 a.loc.Line, Column := uint32 a.loc.Column }

/-- A range loop over a slice that updates a state and stops at the first
fault. -/
def rangeLoop {σ α : Type} (f : σ → α → Except Panic σ) : σ → List α → Except Panic σ
  | s, [] => pure s
  | s, a :: rest => do
    let s1 ← f s a
    rangeLoop f s1 rest

/-- The loop over the parse errors in processSource: an attachment per
*parseError; the first error of another type ends processSource with an
error. The result is the new value of result and the error returned, if
any. -/
def attachErrors (env : Collaborators) (outStream json : Bool) (err : Option String)
    (uri : String) : List messages.Wrapper → List ErrorItem →
    List messages.Wrapper × Option String
  | result, [] => (result, none)
  | result, .parseError pe :: rest =>
    attachErrors env outStream json err uri
      (handleMessage env outStream json err result (asAttachment env pe uri)).1 rest
  | result, .other text :: _ =>
    (result, some ("parse feature file: " ++ uri ++ ", unexpected error: " ++ text ++ "\n"))

/-- The body of the loop over pickle.Steps in the fakeResults part. -/
def fakeStep (env : Collaborators) (outStream json : Bool) (err : Option String)
    (pickleId : String) (result : List messages.Wrapper) (p : Nat × messages.PickleStep) :
    Except Panic (List messages.Wrapper) := do
  let index := p.1
  let step := p.2
  let result1 := (handleMessage env outStream json err result
    (.TestStepStarted pickleId (index % 4294967296))).1
  let (status, message) ←
    if env.containsFailed step.Text then
      match step.Locations with
      | loc :: _ =>
        pure (messages.Status.FAILED,
          "ERROR: " ++ step.Text ++ ":" ++ toString loc.Line ++ ":" ++ toString loc.Column)
      | [] => throw Panic.indexOutOfRange
    else pure (messages.Status.PASSED, "")
  pure (handleMessage env outStream json err result1
    (.TestStepFinished pickleId (index % 4294967296) status message)).1

/-- The body of the loop over the pickles in the fakeResults part. -/
def fakePickle (env : Collaborators) (outStream json : Bool) (err : Option String)
    (result : List messages.Wrapper) (pickle : messages.Pickle) :
    Except Panic (List messages.Wrapper) := do
  let result1 := (handleMessage env outStream json err result
    (.TestCaseStarted pickle.Id)).1
  let result2 ← rangeLoop (fakeStep env outStream json err pickle.Id) result1 pickle.Steps.enum
  pure (handleMessage env outStream json err result2 (.TestCaseFinished pickle.Id)).1

/-- The closure processSource. The state is the pair of the variables result
and err of Messages; the value returned with it is the error processSource
returns. -/
def processSource (env : Collaborators) (language : String)
    (includeSource includeGherkinDocument includePickles outStream json fakeResults : Bool)
    (state : List messages.Wrapper × Option String) (source : messages.Source) :
    Except Panic ((List messages.Wrapper × Option String) × Option String) := do
  let (result0, err0) :=
    if includeSource then handleMessage env outStream json state.2 state.1 (.Source source)
    else state
  let (doc, perr) := env.parse source.Data source.Uri language
  match perr with
  | .parseErrors errs =>
    let (result1, returned) := attachErrors env outStream json err0 source.Uri result0 errs
    pure ((result1, err0), returned)
  | _ =>
    let (doc1, result1) ←
      if includeGherkinDocument then do
        let d ← deref doc
        let d1 : messages.GherkinDocument := { d with Uri := source.Uri }
        pure (some d1, (handleMessage env outStream json err0 result0 (.GherkinDocument d1)).1)
      else pure (doc, result0)
    let result2 ←
      if includePickles then do
        let d ← deref doc1
        rangeLoop (fun r pickle =>
          pure (handleMessage env outStream json err0 r (.Pickle pickle)).1) result1
          (env.Pickles d)
      else pure result1
    let result3 ←
      if fakeResults then do
        let d ← deref doc1
        rangeLoop (fakePickle env outStream json err0) result2 (env.Pickles d)
      else pure result2
    pure ((result3, err0), none)

/-- The loop over the wrappers read from the source stream: a Source wrapper
is processed, any other is skipped; the error processSource returns is
dropped. -/
def streamLoop (env : Collaborators) (language : String)
    (includeSource includeGherkinDocument includePickles outStream json fakeResults : Bool)
    (state : List messages.Wrapper × Option String) (sourceStream : List messages.Wrapper) :
    Except Panic (List messages.Wrapper × Option String) :=
  rangeLoop (fun state wrapper =>
    match wrapper with
    | .Source source => do
      let (state1, _) ← processSource env language includeSource includeGherkinDocument
        includePickles outStream json fakeResults state source
      pure state1
    | _ => pure state) state sourceStream

/-- The loop over the paths: a file that cannot be read ends Messages with the
result so far and an error; otherwise its content is processed as a source and
the error processSource returns is dropped. -/
def pathsLoop (env : Collaborators) (language : String)
    (includeSource includeGherkinDocument includePickles outStream json fakeResults : Bool) :
    List messages.Wrapper × Option String → List String →
    Except Panic (List messages.Wrapper × Option String)
  | state, [] => pure state
  | state, path :: rest =>
    match env.readFile path with
    | .error e => pure (state.1, some ("read feature file: " ++ path ++ " - " ++ e))
    | .ok data => do
      let (state1, _) ← processSource env language includeSource includeGherkinDocument
        includePickles outStream json fakeResults state { Uri := path, Data := data }
      pathsLoop env language includeSource includeGherkinDocument includePickles outStream
        json fakeResults state1 rest

/-- The function Messages: the pair it returns. The source stream is the list
of the wrappers read before EOF. -/
def Messages (env : Collaborators) (paths : List String) (sourceStream : List messages.Wrapper)
    (language : String) (includeSource includeGherkinDocument includePickles outStream json
      fakeResults : Bool) :
    Except Panic (List messages.Wrapper × Option String) :=
  match paths with
  | [] =>
    streamLoop env language includeSource includeGherkinDocument includePickles outStream json
      fakeResults ([], none) sourceStream
  | _ =>
    pathsLoop env language includeSource includeGherkinDocument includePickles outStream json
      fakeResults ([], none) paths

/-! ## Expected wrappers of one source -/

/-- The status and message of the TestStepFinished of a step. -/
def stepOutcome (env : Collaborators) (step : messages.PickleStep) : messages.Status × String :=
  if env.containsFailed step.Text then
    match step.Locations with
    | loc :: _ =>
      (messages.Status.FAILED,
        "ERROR: " ++ step.Text ++ ":" ++ toString loc.Line ++ ":" ++ toString loc.Column)
    | [] => (messages.Status.FAILED, "")
  else (messages.Status.PASSED, "")

/-- The fake results of one pickle: TestCaseStarted, then TestStepStarted and
TestStepFinished for each step in order, then TestCaseFinished. -/
def fakeResultsOf (env : Collaborators) (pickle : messages.Pickle) : List messages.Wrapper :=
  [.TestCaseStarted pickle.Id] ++
    pickle.Steps.enum.flatMap (fun p =>
      [.TestStepStarted pickle.Id (p.1 % 4294967296),
       .TestStepFinished pickle.Id (p.1 % 4294967296) (stepOutcome env p.2).1
         (stepOutcome env p.2).2]) ++
    [.TestCaseFinished pickle.Id]

/-- The document processSource works on after the GherkinDocument part: its
Uri is set to that of the source when the document is included. -/
def sentDocument (includeGherkinDocument : Bool) (source : messages.Source)
    (doc : messages.GherkinDocument) : messages.GherkinDocument :=
  if includeGherkinDocument then { doc with Uri := source.Uri } else doc

/-- The wrappers of one source whose document is doc: the source, the
document, the pickles and the fake results, each when its flag is set. -/
def wrappersOf (env : Collaborators)
    (includeSource includeGherkinDocument includePickles fakeResults : Bool)
    (source : messages.Source) (doc : messages.GherkinDocument) : List messages.Wrapper :=
  (if includeSource then [.Source source] else []) ++
  (if includeGherkinDocument then
     [.GherkinDocument (sentDocument includeGherkinDocument source doc)] else []) ++
  (if includePickles then
     (env.Pickles (sentDocument includeGherkinDocument source doc)).map .Pickle else []) ++
  (if fakeResults then
     (env.Pickles (sentDocument includeGherkinDocument source doc)).flatMap (fakeResultsOf env)
   else [])

/-- The source of the test TestMessagesWithStdin. -/
def exampleSource : messages.Source :=
  { Uri := "features/test.feature",
    Data := "Feature: Minimal

  Scenario: a
    Given a

  Scenario: b
    Given b
" }

/-- Two pickles of one step each. -/
def examplePickles : List messages.Pickle :=
  [{ Id := "1", Steps := [{ Text := "a", Locations := [⟨4, 11⟩] }] },
   { Id := "2", Steps := [{ Text := "b", Locations := [⟨7, 11⟩] }] }]

/-- Collaborators for the test source: the parser returns a document (its
content does not matter to Messages) and the pickle compiler two pickles of one
step each. -/
def exampleCollaborators : Collaborators :=
  { parse := fun _ uri _ => (some { Uri := uri, Feature := none, Comments := [] }, .none),
    Pickles := fun _ => examplePickles,
    errorText := fun e => e.msg,
    containsFailed := fun text => decide ("failed".data <:+: text.data.map Char.toLower),
    readFile := fun path => .error ("open " ++ path ++ ": no such file or directory"),
    marshalJson := fun _ => none,
    marshalProto := fun _ => none }

/-- A node whose children under Other are a string and then a leaf. -/
def exampleMixedNode : AstNode :=
  ((newAstNode .Description).add .Other (.str "x")).add .Other (.token (exampleLine 2 "a"))

/-- The source parses without error into doc, and every step of a pickle of
the document whose text contains "failed" has a location. -/
def cleanSource (env : Collaborators) (language : String) (includeGherkinDocument : Bool)
    (source : messages.Source) (doc : messages.GherkinDocument) : Prop :=
  env.parse source.Data source.Uri language = (some doc, ParserError.none) ∧
  ∀ pickle ∈ env.Pickles (sentDocument includeGherkinDocument source doc),
    ∀ step ∈ pickle.Steps, env.containsFailed step.Text = true → step.Locations ≠ []

/-- The wrappers of one wrapper read from the source stream: those of its
source when it is a Source wrapper (docOf gives the document of a source), none
otherwise. -/
def wrappersOfRead (env : Collaborators)
    (includeSource includeGherkinDocument includePickles fakeResults : Bool)
    (docOf : messages.Source → messages.GherkinDocument) :
    messages.Wrapper → List messages.Wrapper
  | .Source source =>
    wrappersOf env includeSource includeGherkinDocument includePickles fakeResults source
      (docOf source)
  | _ => []

/-- Collaborators whose pickle compiler returns one pickle with one step, of
text "it failed", without location. -/
def exampleFailedCollaborators : Collaborators :=
  { exampleCollaborators with
    Pickles := fun _ => [{ Id := "1", Steps := [{ Text := "it failed", Locations := [] }] }] }

/-- A second source, and the stream of the test source, a wrapper that is not
a source, and the second source. -/
def exampleStream : List messages.Wrapper :=
  [.Source exampleSource, .TestCaseStarted "0",
   .Source { Uri := "features/other.feature", Data := "Feature: Other\n" }]

/-- Collaborators that read the two feature files of exampleStream. -/
def exampleFileCollaborators : Collaborators :=
  { exampleCollaborators with
    readFile := fun path =>
      if path = "features/test.feature" then .ok exampleSource.Data
      else if path = "features/other.feature" then .ok "Feature: Other\n"
      else .error ("open " ++ path ++ ": no such file or directory") }

/-! # Theorems -/

theorem astTableRows_fst (n : AstNode) :
    (astTableRows n).1 = (n.getTokens .TableRow).map rowOfToken := rfl

theorem astTableRows_snd (n : AstNode) :
    (astTableRows n).2 = ensureCellCount ((n.getTokens .TableRow).map rowOfToken) := rfl

theorem rowOfToken_cells_length (tok : Token) :
    (rowOfToken tok).Cells.length = tok.Items.length := by
  simp [rowOfToken, astTableCells]

theorem uint32_of_inRange (x : Int) (h : InUint32 x) : ((uint32 x : Nat) : Int) = x := by
  obtain ⟨h0, h1⟩ := h
  unfold uint32
  rw [Int.emod_eq_of_lt h0 h1]
  exact Int.toNat_of_nonneg h0

theorem ensureCellCount_cons_cons (r0 r1 : messages.TableRow) (rest : List messages.TableRow) :
    ensureCellCount (r0 :: r1 :: rest) =
      ((r0 :: r1 :: rest).find? (fun r => decide (r0.Cells.length ≠ r.Cells.length))).map
        cellCountError := by
  cases h : (r0 :: r1 :: rest).find? (fun r => decide (r0.Cells.length ≠ r.Cells.length)) with
  | none => simp only [ensureCellCount, h]; rfl
  | some r => simp only [ensureCellCount, h]; rfl

theorem ensureCellCount_eq_some (toks : List Token) (e : ParseError)
    (hrange : ∀ tok ∈ toks, InUint32 tok.Location.Line ∧ InUint32 tok.Location.Column) :
    ensureCellCount (toks.map rowOfToken) = some e ↔
      2 ≤ toks.length ∧ ∃ t0 pre tok post, toks = pre ++ tok :: post ∧ toks.head? = some t0 ∧
        (∀ p ∈ pre, p.Items.length = t0.Items.length) ∧
        tok.Items.length ≠ t0.Items.length ∧
        e = { msg := "inconsistent cell count within the table", loc := tok.Location } := by
  match toks, hrange with
  | [], _ => simp [ensureCellCount]
  | [a], _ => simp [ensureCellCount]
  | a :: b :: rest, hrange =>
    simp only [List.map_cons, ensureCellCount_cons_cons]
    rw [← List.map_cons, ← List.map_cons, List.find?_map]
    simp only [Option.map_map, Option.map_eq_some', List.find?_eq_some]
    constructor
    · rintro ⟨tok, ⟨hp, pre, post, hsplit, hpre⟩, he⟩
      refine ⟨by simp, a, pre, tok, post, hsplit, rfl, ?_, ?_, ?_⟩
      · intro p hp'
        have := hpre p hp'
        simp [rowOfToken_cells_length] at this
        exact this.symm
      · simp [rowOfToken_cells_length] at hp
        exact fun h => hp h.symm
      · have hmem : tok ∈ a :: b :: rest := by rw [hsplit]; simp
        obtain ⟨hl, hc⟩ := hrange tok hmem
        rw [← he]
        simp [cellCountError, rowOfToken, astLocation, uint32_of_inRange _ hl,
          uint32_of_inRange _ hc]
    · rintro ⟨_, t0, pre, tok, post, hsplit, hhead, hpre, hne, he⟩
      simp at hhead
      subst hhead
      refine ⟨tok, ⟨?_, pre, post, hsplit, ?_⟩, ?_⟩
      · simp [rowOfToken_cells_length]
        exact fun h => hne h.symm
      · intro p hp'
        simp [rowOfToken_cells_length]
        exact (hpre p hp').symm
      · have hmem : tok ∈ a :: b :: rest := by rw [hsplit]; simp
        obtain ⟨hl, hc⟩ := hrange tok hmem
        rw [he]
        simp [cellCountError, rowOfToken, astLocation, uint32_of_inRange _ hl,
          uint32_of_inRange _ hc]

/-- C1: for a node whose table-row leaves have line and column in the uint32
range (row i has as many cells as leaf i has items), astTableRows returns an
error exactly when there are at least two rows and some row has a cell count
different from the first row; the error returned is the located error at the
location of the first such row. -/
theorem astTableRows_error_iff (n : AstNode)
    (hrange : ∀ tok ∈ n.getTokens .TableRow,
      InUint32 tok.Location.Line ∧ InUint32 tok.Location.Column) :
    ((astTableRows n).1.map (fun row => row.Cells.length) =
      (n.getTokens .TableRow).map (fun tok => tok.Items.length)) ∧
    ((astTableRows n).2.isSome = true ↔
      2 ≤ (n.getTokens .TableRow).length ∧
      ∃ t0 tok, (n.getTokens .TableRow).head? = some t0 ∧ tok ∈ n.getTokens .TableRow ∧
        tok.Items.length ≠ t0.Items.length) ∧
    (∀ e, (astTableRows n).2 = some e ↔
      2 ≤ (n.getTokens .TableRow).length ∧
      ∃ t0 pre tok post, n.getTokens .TableRow = pre ++ tok :: post ∧
        (n.getTokens .TableRow).head? = some t0 ∧
        (∀ p ∈ pre, p.Items.length = t0.Items.length) ∧
        tok.Items.length ≠ t0.Items.length ∧
        e = { msg := "inconsistent cell count within the table", loc := tok.Location }) := by
  have key := fun e => ensureCellCount_eq_some (n.getTokens .TableRow) e hrange
  have hcells : (astTableRows n).1.map (fun row => row.Cells.length) =
      (n.getTokens .TableRow).map (fun tok => tok.Items.length) := by
    rw [astTableRows_fst, List.map_map]
    exact List.map_congr_left (fun tok _ => rowOfToken_cells_length tok)
  refine ⟨hcells, ?_⟩
  rw [astTableRows_snd]
  refine ⟨?_, key⟩
  rw [Option.isSome_iff_exists]
  constructor
  · rintro ⟨e, he⟩
    obtain ⟨hlen, t0, pre, tok, post, hsplit, hhead, -, hne, -⟩ := (key e).mp he
    exact ⟨hlen, t0, tok, hhead, by rw [hsplit]; simp, hne⟩
  · rintro ⟨hlen, t0, tok, hhead, hmem, hne⟩
    cases hfind : ensureCellCount ((n.getTokens .TableRow).map rowOfToken) with
    | some e => exact ⟨e, rfl⟩
    | none =>
      exfalso
      generalize n.getTokens .TableRow = toks at hlen hhead hmem hfind
      match toks, hlen, hhead, hmem, hfind with
      | a :: b :: rest, _, hhead, hmem, hfind =>
        simp only [List.map_cons, ensureCellCount_cons_cons] at hfind
        rw [← List.map_cons, ← List.map_cons, List.find?_map] at hfind
        simp only [Option.map_eq_none', List.find?_eq_none] at hfind
        simp only [List.head?_cons, Option.some.injEq] at hhead
        subst hhead
        have := hfind tok hmem
        simp [rowOfToken_cells_length] at this
        exact hne this.symm

/-- Witness for C1 on the rows with cell counts 2, 2, 3: one error, located at
the third row. -/
theorem astTableRows_error_iff_witness :
    (∀ tok ∈ exampleTable223.getTokens .TableRow,
      InUint32 tok.Location.Line ∧ InUint32 tok.Location.Column) ∧
    (astTableRows exampleTable223).2 =
      some { msg := "inconsistent cell count within the table", loc := ⟨6, 7⟩ } ∧
    ((astTableRows exampleTable223).1.map fun r => r.Cells.length) = [2, 2, 3] :=
  ⟨by decide,
   ((astTableRows_error_iff exampleTable223 (by decide)).2.2 _).mpr
     ⟨by decide, exampleRow 4 7 2, [exampleRow 4 7 2, exampleRow 5 7 2], exampleRow 6 7 3, [],
       by decide, by decide, by decide, by decide, rfl⟩,
   by decide⟩

/-! ## The map of a node -/

theorem mapGet_mapSet (m : List (RuleType × List Obj)) (k k' : RuleType) (v : List Obj) :
    mapGet (mapSet m k v) k' = if k = k' then some v else mapGet m k' := by
  induction m with
  | nil => simp [mapSet, mapGet]
  | cons e rest ih =>
    obtain ⟨a, w⟩ := e
    by_cases hak : a = k
    · subst hak
      by_cases hk : a = k' <;> simp [mapSet, mapGet, hk]
    · by_cases hk : k = k'
      · subst hk
        simp [mapSet, mapGet, hak, ih]
      · by_cases hak' : a = k'
        · subst hak'
          simp [mapSet, mapGet, hak, hk]
        · simp [mapSet, mapGet, hak, hk, hak', ih]

theorem AstNode.ruleType_add (a : AstNode) (rt : RuleType) (obj : Obj) :
    (a.add rt obj).ruleType = a.ruleType := rfl

theorem AstNode.getItems_add_self (a : AstNode) (rt : RuleType) (obj : Obj) :
    (a.add rt obj).getItems rt = a.getItems rt ++ [obj] := by
  obtain ⟨r, m⟩ := a
  simp only [AstNode.getItems, AstNode.add, AstNode.subNodes, mapGet_mapSet, if_true]
  cases mapGet m rt <;> rfl

theorem AstNode.getItems_add_of_ne (a : AstNode) (rt rt' : RuleType) (obj : Obj)
    (h : rt ≠ rt') : (a.add rt obj).getItems rt' = a.getItems rt' := by
  simp only [AstNode.getItems, AstNode.add, AstNode.subNodes, mapGet_mapSet, if_neg h]

theorem AstNode.getSingle_eq_head (a : AstNode) (rt : RuleType) :
    a.getSingle rt = ((a.getItems rt).head?).getD Obj.nil := by
  unfold AstNode.getSingle AstNode.getItems
  cases h : mapGet a.subNodes rt with
  | none => rfl
  | some val => cases val <;> rfl

/-! ## The transformer reads only the comments and the URI of the builder -/

theorem AstBuilder.transformNode_congr (t t' : AstBuilder) (node : AstNode)
    (hc : t.comments = t'.comments) (hu : t.uri = t'.uri) :
    t.transformNode node = t'.transformNode node := by
  unfold AstBuilder.transformNode
  rw [hc, hu]

theorem getLast?_append_pair {α : Type} (l : List α) (a b : α) :
    (l ++ [a, b]).getLast? = some b := by
  have : l ++ [a, b] = (l ++ [a]) ++ [b] := by simp
  rw [this, List.getLast?_append]
  simp

theorem dropLast_append_pair {α : Type} (l : List α) (a b : α) :
    (l ++ [a, b]).dropLast = l ++ [a] := by
  have : l ++ [a, b] = (l ++ [a]) ++ [b] := by simp
  rw [this, List.dropLast_concat]

/-- EndRule on a stack below ++ [parent, node] when the transformation of node
returns (v, err). -/
theorem AstBuilder.EndRule_eq (t : AstBuilder) (below : List AstNode)
    (parent node : AstNode) (r : RuleType) (hstack : t.stack = below ++ [parent, node])
    (v : Obj) (err : Option ParseError) (htr : t.transformNode node = .ok (v, err)) :
    t.EndRule r = .ok ({ stack := below ++ [parent.add node.ruleType v],
                         comments := t.comments, uri := t.uri }, true, err) := by
  have htr1 : ({ t with stack := below ++ [parent] } : AstBuilder).transformNode node
      = .ok (v, err) := by
    rw [← htr]; exact AstBuilder.transformNode_congr _ _ _ rfl rfl
  simp only [AstBuilder.EndRule, AstBuilder.pop, hstack, getLast?_append_pair,
    dropLast_append_pair]
  simp only [bind, Except.bind, pure, Except.pure, htr1, AstBuilder.addToCurrent,
    AstBuilder.currentNode, List.getLast?_append, List.getLast?_singleton,
    Option.or, List.dropLast_concat]

/-- C2: on a stack below ++ [parent, node], when the transformation of node
returns (v, err), EndRule (with any argument r) leaves below, the comments and
the URI as they are, replaces the two top nodes by parent with v appended under
node's own rule category, and returns err; the children of parent under the
other categories are unchanged. When node is a DataTable whose rows are not
rectangular, the error is returned and the DataTable value with all the rows is
the value filed. -/
theorem EndRule_pops_and_files (t : AstBuilder) (below : List AstNode)
    (parent node : AstNode) (r : RuleType) (hstack : t.stack = below ++ [parent, node]) :
    (∀ v err, t.transformNode node = .ok (v, err) →
      t.EndRule r = .ok ({ stack := below ++ [parent.add node.ruleType v],
                           comments := t.comments, uri := t.uri }, true, err) ∧
      (parent.add node.ruleType v).ruleType = parent.ruleType ∧
      (parent.add node.ruleType v).getItems node.ruleType =
        parent.getItems node.ruleType ++ [v] ∧
      ∀ rt, rt ≠ node.ruleType →
        (parent.add node.ruleType v).getItems rt = parent.getItems rt) ∧
    (node.ruleType = .DataTable → ∀ e, (astTableRows node).2 = some e →
      ∃ r0, (astTableRows node).1.head? = some r0 ∧
        t.EndRule r = .ok
          ({ stack := below ++ [parent.add .DataTable
                (.dataTable { Location := r0.Location, Rows := (astTableRows node).1 })],
             comments := t.comments, uri := t.uri }, true, some e)) := by
  have hgeneral := AstBuilder.EndRule_eq t below parent node r hstack
  refine ⟨fun v err htr => ⟨hgeneral v err htr, rfl, AstNode.getItems_add_self _ _ _,
    fun rt hrt => AstNode.getItems_add_of_ne _ _ _ _ (Ne.symm hrt)⟩, ?_⟩
  intro hrt e he
  have hrows : (astTableRows node).1 ≠ [] := by
    intro hnil
    rw [astTableRows_snd] at he
    rw [astTableRows_fst] at hnil
    rw [hnil] at he
    simp [ensureCellCount] at he
  cases hr : (astTableRows node).1 with
  | nil => exact absurd hr hrows
  | cons r0 rest =>
    refine ⟨r0, rfl, ?_⟩
    have htr : t.transformNode node =
        .ok (.dataTable { Location := r0.Location, Rows := r0 :: rest }, some e) := by
      unfold AstBuilder.transformNode
      rw [hrt]
      have hpair : astTableRows node = (r0 :: rest, some e) := by
        rw [← hr, ← he]
      simp only [hpair]
      rfl
    have := hgeneral _ _ htr
    rw [hrt] at this
    exact this

/-- Witness for C2: closing the DataTable node with rows of 2, 2 and 3 cells,
with the argument None: the error at the third row is returned and the
DataTable with the three rows is filed under DataTable in the Step node. -/
theorem EndRule_pops_and_files_witness :
    exampleBuilderTable.stack = [newAstNode .None] ++ [newAstNode .Step, exampleTable223] ∧
    exampleBuilderTable.EndRule .None = .ok
      ({ stack := [newAstNode .None] ++ [(newAstNode .Step).add .DataTable
            (.dataTable { Location := ⟨4, 7⟩, Rows := (astTableRows exampleTable223).1 })],
         comments := [], uri := "u" }, true,
       some { msg := "inconsistent cell count within the table", loc := ⟨6, 7⟩ }) ∧
    (astTableRows exampleTable223).1.length = 3 :=
  ⟨rfl,
   ((EndRule_pops_and_files exampleBuilderTable [newAstNode .None] (newAstNode .Step)
      exampleTable223 .None rfl).1 _ _ rfl).1,
   rfl⟩

/-- C3: from a fresh builder, the event sequence of a feature "F" with one
scenario "S" with one step "a" (the other fields of the three leaves are
arbitrary) returns no error from any of its 15 events, and GetGherkinDocument
then returns a Document whose feature is named "F" and has exactly one child, a
scenario named "S" with no tags, no examples and exactly one step, with text
"a" and no argument. -/
theorem minimal_feature_document (u : String) (kf ks kt d ds dt : String)
    (itf its itt : List LineSpan) (lf ls lt : Location) :
    ∃ t1 doc feat sc st,
      (NewAstBuilder u).run (exampleEvents
        { Typ := .FeatureLine, Keyword := kf, Text := "F", Items := itf,
          GherkinDialect := d, Location := lf }
        { Typ := .ScenarioLine, Keyword := ks, Text := "S", Items := its,
          GherkinDialect := ds, Location := ls }
        { Typ := .StepLine, Keyword := kt, Text := "a", Items := itt,
          GherkinDialect := dt, Location := lt })
        = .ok (t1, List.replicate 15 (true, none)) ∧
      t1.GetGherkinDocument = .ok (some doc) ∧
      doc = exampleDocument u
        { Typ := .FeatureLine, Keyword := kf, Text := "F", Items := itf,
          GherkinDialect := d, Location := lf }
        { Typ := .ScenarioLine, Keyword := ks, Text := "S", Items := its,
          GherkinDialect := ds, Location := ls }
        { Typ := .StepLine, Keyword := kt, Text := "a", Items := itt,
          GherkinDialect := dt, Location := lt } ∧
      doc.Feature = some feat ∧ feat.Name = "F" ∧ feat.Children = .mk [.Scenario sc] ∧
      sc.Name = "S" ∧ sc.Tags = [] ∧ sc.Examples = [] ∧ sc.Steps = [some st] ∧
      st.Text = "a" ∧ st.Argument = none := by
  refine ⟨{ stack := [(newAstNode .None).add .GherkinDocument (.document (exampleDocument u
        { Typ := .FeatureLine, Keyword := kf, Text := "F", Items := itf,
          GherkinDialect := d, Location := lf }
        { Typ := .ScenarioLine, Keyword := ks, Text := "S", Items := its,
          GherkinDialect := ds, Location := ls }
        { Typ := .StepLine, Keyword := kt, Text := "a", Items := itt,
          GherkinDialect := dt, Location := lt }))], comments := [], uri := u },
    _, _, _, _, ?_, rfl, rfl, rfl, rfl, rfl, rfl, rfl, rfl, rfl, rfl, rfl⟩
  simp [AstBuilder.run, AstBuilder.handle, exampleEvents, NewAstBuilder, AstBuilder.StartRule,
    AstBuilder.Build, AstBuilder.EndRule, AstBuilder.push, AstBuilder.pop,
    AstBuilder.addToCurrent, AstBuilder.currentNode, AstBuilder.transformNode, newAstNode,
    AstNode.add, AstNode.getSingle, AstNode.getItems, AstNode.getToken, AstNode.getTokens,
    AstNode.ruleType, AstNode.subNodes, mapGet, mapSet, TokenType.RuleType, deref,
    Obj.asToken, Obj.asNode, Obj.asString, astSteps, astExamples, astTags, Obj.asStep,
    Obj.asFeature, Obj.asBackground, Obj.asExamples, bind, Except.bind, pure, Except.pure,
    forEach, Obj.mustScenario, Obj.mustRule, exampleDocument, GoSlice.appendAll,
    GoSlice.append, GoSlice.toList]

/-- C4 as stated fails: for a table-row leaf on line 2^32 + 5 the row and its
cell are on line 5, not on the line of the leaf. -/
theorem astTableRows_line_not_leaf_line :
    (exampleFarRowNode.getTokens .TableRow).map (fun tok => tok.Location.Line) = [4294967301] ∧
    (astTableRows exampleFarRowNode).1.map (fun row => (row.Location.Line : Int)) = [5] ∧
    (astTableRows exampleFarRowNode).1.map
      (fun row => row.Cells.map fun cell => (cell.Location.Line : Int)) = [[5]] := by
  decide

/-- C4, amended: for every node, with or without an error, astTableRows returns
one TableRow per table-row leaf, in order (none when there are no leaves); row i
has the uint32 conversion of the location of leaf i and one TableCell per item
of leaf i, in order; cell j has the uint32 conversion of the line of the leaf
and of the column of item j, and the text of item j as value. The conversions
are the identity on lines and columns in the uint32 range. -/
theorem astTableRows_rows (n : AstNode) :
    (astTableRows n).1 = (n.getTokens .TableRow).map (fun tok =>
      { Location := { Line := uint32 tok.Location.Line, Column := uint32 tok.Location.Column },
        Cells := tok.Items.map (cellOfItem tok) }) ∧
    (astTableRows n).1.length = (n.getTokens .TableRow).length ∧
    (n.getTokens .TableRow = [] → (astTableRows n).1 = []) ∧
    (∀ (i : Nat) (tok : Token), (n.getTokens .TableRow)[i]? = some tok →
      ∃ row : messages.TableRow, (astTableRows n).1[i]? = some row ∧
        row.Location = { Line := uint32 tok.Location.Line,
                         Column := uint32 tok.Location.Column } ∧
        (InUint32 tok.Location.Line → (row.Location.Line : Int) = tok.Location.Line) ∧
        (InUint32 tok.Location.Column → (row.Location.Column : Int) = tok.Location.Column) ∧
        row.Cells.length = tok.Items.length ∧
        ∀ (j : Nat) (item : LineSpan), tok.Items[j]? = some item →
          ∃ cell : messages.TableCell, row.Cells[j]? = some cell ∧ cell.Value = item.Text ∧
            cell.Location = { Line := uint32 tok.Location.Line,
                              Column := uint32 item.Column } ∧
            (InUint32 tok.Location.Line → (cell.Location.Line : Int) = tok.Location.Line) ∧
            (InUint32 item.Column → (cell.Location.Column : Int) = item.Column)) := by
  have hrows : (astTableRows n).1 = (n.getTokens .TableRow).map (fun tok =>
      { Location := { Line := uint32 tok.Location.Line, Column := uint32 tok.Location.Column },
        Cells := tok.Items.map (cellOfItem tok) }) := rfl
  refine ⟨hrows, by rw [hrows, List.length_map], fun h => by rw [hrows, h]; rfl, ?_⟩
  intro i tok hi
  refine ⟨_, by rw [hrows, List.getElem?_map, hi]; rfl, rfl,
    fun h => uint32_of_inRange _ h, fun h => uint32_of_inRange _ h,
    by simp, ?_⟩
  intro j item hj
  exact ⟨cellOfItem tok item, by simp [List.getElem?_map, hj], rfl, rfl,
    fun h => uint32_of_inRange _ h, fun h => uint32_of_inRange _ h⟩

/-- Witness for C4 (amended) on the table with rows of 2, 2 and 3 cells, whose
locations are in range: three rows at the locations of the leaves. -/
theorem astTableRows_rows_witness :
    (astTableRows exampleTable223).1.length = 3 ∧
    (astTableRows exampleTable223).1.map (fun row => row.Location) =
      [⟨4, 7⟩, ⟨5, 7⟩, ⟨6, 7⟩] :=
  ⟨(astTableRows_rows exampleTable223).2.1.trans (by decide),
   by rw [(astTableRows_rows exampleTable223).1]; decide⟩

/-! ## The trailing-blank loop of the Description case -/

theorem trimmedEnd_le (toks : List Token) (e : Nat) : trimmedEnd toks e ≤ e := by
  induction e with
  | zero => simp [trimmedEnd]
  | succ e ih =>
    unfold trimmedEnd
    split
    · split
      · exact Nat.le_succ_of_le ih
      · exact Nat.le_refl _
    · exact Nat.le_refl _

theorem trimmedEnd_blank_after (toks : List Token) (e : Nat) (he : e ≤ toks.length) :
    ∀ i tok, trimmedEnd toks e ≤ i → i < e → toks[i]? = some tok → isBlank tok.Text := by
  induction e with
  | zero => intro i tok _ hi; exact absurd hi (Nat.not_lt_zero _)
  | succ e ih =>
    intro i tok hk hi htok
    unfold trimmedEnd at hk
    have helt : e < toks.length := he
    rw [List.getElem?_eq_getElem helt] at hk
    simp only at hk
    split at hk
    · rename_i hblank
      by_cases hie : i = e
      · subst hie
        rw [List.getElem?_eq_getElem helt] at htok
        cases htok
        exact hblank
      · exact ih (Nat.le_of_lt helt) i tok hk (by omega) htok
    · omega

theorem trimmedEnd_last_not_blank (toks : List Token) (e : Nat) (he : e ≤ toks.length) :
    0 < trimmedEnd toks e →
      ∃ tok, toks[trimmedEnd toks e - 1]? = some tok ∧ ¬ isBlank tok.Text := by
  induction e with
  | zero => simp [trimmedEnd]
  | succ e ih =>
    intro hpos
    have helt : e < toks.length := he
    unfold trimmedEnd at hpos ⊢
    rw [List.getElem?_eq_getElem helt] at hpos ⊢
    simp only at hpos ⊢
    split
    · rename_i hblank
      rw [if_pos hblank] at hpos
      exact ih (Nat.le_of_lt helt) hpos
    · rename_i hblank
      exact ⟨toks[e], by simp [List.getElem?_eq_getElem helt], hblank⟩

/-- C5: a Description node with line texts t1..tn is transformed, with no
error, into t1..tk joined by single newlines, where every text after tk is
blank and tk is not (so k is the largest index of a non-blank text, and 0 when
all are blank, which gives the empty string); the kept texts are those of the
leaves, unchanged. -/
theorem transformNode_description (t : AstBuilder) (node : AstNode)
    (hrt : node.ruleType = .Description) :
    ∃ k, k ≤ ((node.getTokens .Other).map fun tok => tok.Text).length ∧
      t.transformNode node =
        .ok (.str (Join (((node.getTokens .Other).map fun tok => tok.Text).take k) "\n"), none) ∧
      (∀ (i : Nat) (s : String), k ≤ i →
        ((node.getTokens .Other).map fun tok => tok.Text)[i]? = some s → isBlank s) ∧
      (0 < k → ∃ s, ((node.getTokens .Other).map fun tok => tok.Text)[k - 1]? = some s ∧
        ¬ isBlank s) ∧
      ((∀ s ∈ (node.getTokens .Other).map fun tok => tok.Text, isBlank s) →
        k = 0 ∧ t.transformNode node = .ok (.str "", none)) := by
  have htr : t.transformNode node = .ok (.str (Join (((node.getTokens .Other).map
      fun tok => tok.Text).take
        (trimmedEnd (node.getTokens .Other) (node.getTokens .Other).length)) "\n"), none) := by
    unfold AstBuilder.transformNode
    rw [hrt]
    simp only [List.map_take]
    rfl
  have hafter : ∀ (i : Nat) (s : String),
      trimmedEnd (node.getTokens .Other) (node.getTokens .Other).length ≤ i →
      ((node.getTokens .Other).map fun tok => tok.Text)[i]? = some s → isBlank s := by
    intro i s hk hs
    rw [List.getElem?_map] at hs
    cases htok : (node.getTokens .Other)[i]? with
    | none => rw [htok] at hs; cases hs
    | some tok =>
      rw [htok] at hs
      cases hs
      have hi : i < (node.getTokens .Other).length := by
        by_contra hge
        rw [List.getElem?_eq_none (Nat.le_of_not_lt hge)] at htok
        cases htok
      exact trimmedEnd_blank_after _ _ (Nat.le_refl _) i tok hk hi htok
  have hlast : 0 < trimmedEnd (node.getTokens .Other) (node.getTokens .Other).length →
      ∃ s, ((node.getTokens .Other).map fun tok => tok.Text)[
        trimmedEnd (node.getTokens .Other) (node.getTokens .Other).length - 1]? = some s ∧
        ¬ isBlank s := by
    intro hpos
    obtain ⟨tok, htok, hnb⟩ := trimmedEnd_last_not_blank _ _ (Nat.le_refl _) hpos
    exact ⟨tok.Text, by rw [List.getElem?_map, htok]; rfl, hnb⟩
  refine ⟨trimmedEnd (node.getTokens .Other) (node.getTokens .Other).length,
    by rw [List.length_map]; exact trimmedEnd_le _ _, htr, hafter, hlast, ?_⟩
  intro hall
  have hzero : trimmedEnd (node.getTokens .Other) (node.getTokens .Other).length = 0 := by
    by_contra hne
    obtain ⟨s, hs, hnb⟩ := hlast (Nat.pos_of_ne_zero hne)
    exact hnb (hall s (List.getElem?_mem hs))
  refine ⟨hzero, ?_⟩
  rw [htr, hzero]
  rfl

/-- Witness for C5: the line texts "a", "", "b", "", "" give "a\n\nb". -/
theorem transformNode_description_witness :
    exampleDescription.ruleType = .Description ∧
    ((exampleDescription.getTokens .Other).map fun tok => tok.Text) = ["a", "", "b", "", ""] ∧
    (NewAstBuilder "u").transformNode exampleDescription = .ok (.str "a\n\nb", none) ∧
    ∃ k, k ≤ ((exampleDescription.getTokens .Other).map fun tok => tok.Text).length ∧
      (NewAstBuilder "u").transformNode exampleDescription =
        .ok (.str (Join (((exampleDescription.getTokens .Other).map
          fun tok => tok.Text).take k) "\n"), none) ∧
      (∀ (i : Nat) (s : String), k ≤ i →
        ((exampleDescription.getTokens .Other).map fun tok => tok.Text)[i]? = some s →
          isBlank s) ∧
      (0 < k → ∃ s, ((exampleDescription.getTokens .Other).map
        fun tok => tok.Text)[k - 1]? = some s ∧ ¬ isBlank s) ∧
      ((∀ s ∈ (exampleDescription.getTokens .Other).map fun tok => tok.Text, isBlank s) →
        k = 0 ∧ (NewAstBuilder "u").transformNode exampleDescription = .ok (.str "", none)) :=
  ⟨rfl, by decide, rfl, transformNode_description (NewAstBuilder "u") exampleDescription rfl⟩

theorem getLast?_append_single {α : Type} (l : List α) (a : α) :
    (l ++ [a]).getLast? = some a := by
  rw [List.getLast?_append]
  simp

/-- C6 as stated fails: the Comment of a comment leaf on line 2^32 + 5, column
-1 is at line 5, column 2^32 - 1, not at the location of the leaf. -/
theorem Build_comment_location_not_leaf_location :
    exampleFarComment.Typ = .Comment ∧
    exampleFarComment.Location = ⟨4294967301, -1⟩ ∧
    (NewAstBuilder "u").Build exampleFarComment =
      .ok ({ stack := [newAstNode .None],
             comments := [{ Location := ⟨5, 4294967295⟩, Text := "# c" }],
             uri := "u" }, true, none) ∧
    ((astLocation exampleFarComment).Line : Int) ≠ exampleFarComment.Location.Line ∧
    ((astLocation exampleFarComment).Column : Int) ≠ exampleFarComment.Location.Column :=
  ⟨rfl, rfl, rfl, by decide, by decide⟩

/-- C6, amended: on a stack below ++ [top], Build returns (true, no error). For
a comment leaf the stack is unchanged and one Comment is appended to the
comment list, with the text of the leaf and with the uint32 conversions of its
line and column, which are that line and column when these are in the uint32
range. For any other leaf the comment list is unchanged, the nodes below the
top are unchanged, and the top node keeps its category and its children under
the other categories and has the leaf appended under the rule category of the
leaf's token category. -/
theorem Build_effect (t : AstBuilder) (below : List AstNode) (top : AstNode) (tok : Token)
    (hstack : t.stack = below ++ [top]) :
    (tok.Typ = .Comment →
      t.Build tok = .ok ({ stack := t.stack,
                           comments := t.comments ++
                             [{ Location := { Line := uint32 tok.Location.Line,
                                              Column := uint32 tok.Location.Column },
                                Text := tok.Text }],
                           uri := t.uri }, true, none) ∧
      (InUint32 tok.Location.Line →
        ((uint32 tok.Location.Line : Nat) : Int) = tok.Location.Line) ∧
      (InUint32 tok.Location.Column →
        ((uint32 tok.Location.Column : Nat) : Int) = tok.Location.Column)) ∧
    (tok.Typ ≠ .Comment →
      t.Build tok = .ok ({ stack := below ++ [top.add tok.Typ.RuleType (.token tok)],
                           comments := t.comments, uri := t.uri }, true, none) ∧
      (top.add tok.Typ.RuleType (.token tok)).ruleType = top.ruleType ∧
      (top.add tok.Typ.RuleType (.token tok)).getItems tok.Typ.RuleType =
        top.getItems tok.Typ.RuleType ++ [.token tok] ∧
      ∀ rt, rt ≠ tok.Typ.RuleType →
        (top.add tok.Typ.RuleType (.token tok)).getItems rt = top.getItems rt) := by
  constructor
  · intro hc
    refine ⟨?_, fun h => uint32_of_inRange _ h, fun h => uint32_of_inRange _ h⟩
    simp [AstBuilder.Build, hc, astLocation, pure, Except.pure]
  · intro hc
    refine ⟨?_, rfl, AstNode.getItems_add_self _ _ _,
      fun rt hrt => AstNode.getItems_add_of_ne _ _ _ _ (Ne.symm hrt)⟩
    simp [AstBuilder.Build, hc, AstBuilder.addToCurrent, AstBuilder.currentNode, hstack,
      getLast?_append_single, bind, Except.bind, pure, Except.pure]

/-- Witness for C6 (amended): a comment leaf and a step-line leaf built on the stack of
exampleBuilderTable; and the run in which a comment leaf arrives between two
Step closures under an open Background: the Background has exactly the two
steps and the Document has the two comments in arrival order. -/
theorem Build_effect_witness :
    exampleBuilderTable.stack = [newAstNode .None, newAstNode .Step] ++ [exampleTable223] ∧
    exampleBuilderTable.Build (exampleLeaf .Comment 5 "" "# second") =
      .ok ({ stack := exampleBuilderTable.stack,
             comments := [{ Location := ⟨5, 1⟩, Text := "# second" }],
             uri := "u" }, true, none) ∧
    exampleBuilderTable.Build (exampleLeaf .StepLine 6 "And " "b") =
      .ok ({ stack := [newAstNode .None, newAstNode .Step] ++
               [exampleTable223.add .StepLine (.token (exampleLeaf .StepLine 6 "And " "b"))],
             comments := [], uri := "u" }, true, none) ∧
    (∃ t1, (NewAstBuilder "u").run exampleCommentEvents =
        .ok (t1, List.replicate 18 (true, none)) ∧
      t1.GetGherkinDocument = .ok (some exampleCommentDocument)) :=
  ⟨rfl,
   ((Build_effect exampleBuilderTable [newAstNode .None, newAstNode .Step] exampleTable223
     (exampleLeaf .Comment 5 "" "# second") rfl).1 rfl).1,
   ((Build_effect exampleBuilderTable [newAstNode .None, newAstNode .Step] exampleTable223
     (exampleLeaf .StepLine 6 "And " "b") rfl).2 (by decide)).1,
   ⟨{ stack := [(newAstNode .None).add .GherkinDocument (.document exampleCommentDocument)],
      comments := exampleCommentDocument.Comments, uri := "u" }, rfl, rfl⟩⟩

/-- C7: for an ExamplesDefinition node whose Examples sub-node has an examples
line: when the first child of the sub-node under ExamplesTable is a row
sequence r1..rn with n at least 1, the Examples value has header r1 and body
r2..rn, so header followed by body is that row sequence; when the sub-node has
no child under ExamplesTable, the header is absent and the body is empty. In
both cases no error is returned. -/
theorem transformNode_examples_header_body (t : AstBuilder) (node examplesNode : AstNode)
    (examplesLine : Token)
    (hrt : node.ruleType = .ExamplesDefinition)
    (hnode : node.getSingle .Examples = .node examplesNode)
    (hline : examplesNode.getToken .ExamplesLine = some examplesLine) :
    (∀ r1 rest, examplesNode.getSingle .ExamplesTable = .tableRows (r1 :: rest) →
      ∃ ex, t.transformNode node = .ok (.examples ex, none) ∧
        ex.TableHeader = some r1 ∧ ex.TableBody = rest ∧
        ex.TableHeader.toList ++ ex.TableBody = r1 :: rest) ∧
    (examplesNode.getItems .ExamplesTable = [] →
      ∃ ex, t.transformNode node = .ok (.examples ex, none) ∧
        ex.TableHeader = none ∧ ex.TableBody = []) := by
  constructor
  · intro r1 rest htable
    refine ⟨{ Tags := astTags node, Location := astLocation examplesLine,
              Keyword := examplesLine.Keyword, Name := examplesLine.Text,
              Description := (examplesNode.getSingle .Description).asString,
              TableHeader := some r1, TableBody := rest }, ?_, rfl, rfl, rfl⟩
    unfold AstBuilder.transformNode
    rw [hrt]
    simp only [hnode, Obj.asNode, deref, hline, htable, bind, Except.bind, pure, Except.pure]
  · intro hnone
    have htable : examplesNode.getSingle .ExamplesTable = .nil := by
      rw [AstNode.getSingle_eq_head, hnone]
      rfl
    refine ⟨{ Tags := astTags node, Location := astLocation examplesLine,
              Keyword := examplesLine.Keyword, Name := examplesLine.Text,
              Description := (examplesNode.getSingle .Description).asString,
              TableHeader := none, TableBody := [] }, ?_, rfl, rfl⟩
    unfold AstBuilder.transformNode
    rw [hrt]
    simp only [hnode, Obj.asNode, deref, hline, htable, bind, Except.bind, pure, Except.pure]

/-- Witness for C7: an ExamplesDefinition without table; and the run of an
examples table with two table-row leaves of 2 items each, which files an
Examples value whose header has 2 cells and whose body is one row of 2
cells. -/
theorem transformNode_examples_header_body_witness :
    (∃ ex, (NewAstBuilder "u").transformNode exampleExamplesNoTable = .ok (.examples ex, none) ∧
      ex.TableHeader = none ∧ ex.TableBody = []) ∧
    (∃ t1 ex header, (NewAstBuilder "u").run exampleExamplesEvents =
        .ok (t1, List.replicate 9 (true, none)) ∧
      (t1.stack.map fun n => n.getItems .ExamplesDefinition) = [[.examples ex]] ∧
      ex.TableHeader = some header ∧ header.Cells.length = 2 ∧
      ex.TableBody.map (fun row => row.Cells.length) = [2]) :=
  ⟨(transformNode_examples_header_body (NewAstBuilder "u") exampleExamplesNoTable
      ((newAstNode .Examples).add .ExamplesLine
        (.token (exampleLeaf .ExamplesLine 7 "Examples" "E")))
      (exampleLeaf .ExamplesLine 7 "Examples" "E") rfl rfl rfl).2 rfl,
   ⟨_, _, _, rfl, rfl, rfl, rfl, rfl⟩⟩

/-! ## The Feature and Rule cases -/

theorem forEach_map_ok {α β γ : Type} (f : β → Except Panic γ) (g : α → β) (h : α → γ)
    (hfg : ∀ a, f (g a) = .ok (h a)) (l : List α) :
    forEach f (l.map g) = .ok (l.map h) := by
  induction l with
  | nil => rfl
  | cons a rest ih =>
    simp only [List.map_cons, forEach, hfg, ih, bind, Except.bind, pure, Except.pure]

theorem AstNode.getItems_add_add_comm (base : AstNode) (r1 r2 : RuleType) (a b : Obj)
    (hne : r1 ≠ r2) (rt : RuleType) :
    ((base.add r1 a).add r2 b).getItems rt = ((base.add r2 b).add r1 a).getItems rt := by
  by_cases h1 : r1 = rt
  · subst h1
    rw [AstNode.getItems_add_of_ne _ _ _ _ (Ne.symm hne), AstNode.getItems_add_self,
      AstNode.getItems_add_self, AstNode.getItems_add_of_ne _ _ _ _ (Ne.symm hne)]
  · by_cases h2 : r2 = rt
    · subst h2
      rw [AstNode.getItems_add_self, AstNode.getItems_add_of_ne _ _ _ _ h1,
        AstNode.getItems_add_of_ne _ _ _ _ h1, AstNode.getItems_add_self]
    · rw [AstNode.getItems_add_of_ne _ _ _ _ h2, AstNode.getItems_add_of_ne _ _ _ _ h1,
        AstNode.getItems_add_of_ne _ _ _ _ h1, AstNode.getItems_add_of_ne _ _ _ _ h2]

/-- The result for a Feature node is determined by the children filed under
each category. -/
theorem AstBuilder.transformNode_feature_congr (t : AstBuilder) (node node1 : AstNode)
    (hrt : node.ruleType = .Feature) (hrt1 : node1.ruleType = .Feature)
    (hitems : ∀ rt, node1.getItems rt = node.getItems rt) :
    t.transformNode node1 = t.transformNode node := by
  unfold AstBuilder.transformNode
  rw [hrt, hrt1]
  simp only [AstNode.getSingle_eq_head, hitems]

/-! ## Slices that are appended to -/

theorem GoSlice.appendAll_mk {α : Type} (l : List α) :
    ∀ (elems : List α), (GoSlice.mk elems).appendAll l = .mk (elems ++ l) := by
  induction l with
  | nil => intro elems; simp [GoSlice.appendAll]
  | cons a rest ih =>
    intro elems
    have h := ih (elems ++ [a])
    simp only [GoSlice.appendAll, List.foldl_cons, GoSlice.append, GoSlice.toList] at h ⊢
    rw [h]
    simp

theorem GoSlice.appendAll_nil_cons {α : Type} (a : α) (rest : List α) :
    (GoSlice.nil : GoSlice α).appendAll (a :: rest) = .mk (a :: rest) := by
  have h := GoSlice.appendAll_mk rest [a]
  simp only [GoSlice.appendAll, List.foldl_cons, GoSlice.append, GoSlice.toList,
    List.nil_append] at h ⊢
  rw [h]
  rfl

theorem GoSlice.appendAll_toList {α : Type} (s : GoSlice α) (l : List α) :
    (s.appendAll l).toList = s.toList ++ l := by
  cases s with
  | mk elems => rw [GoSlice.appendAll_mk]; rfl
  | nil =>
    cases l with
    | nil => rfl
    | cons a rest => rw [GoSlice.appendAll_nil_cons]; rfl

theorem GoSlice.appendAll_eq_nil_iff {α : Type} (s : GoSlice α) (l : List α) :
    s.appendAll l = .nil ↔ s = .nil ∧ l = [] := by
  cases s with
  | mk elems => rw [GoSlice.appendAll_mk]; simp
  | nil =>
    cases l with
    | nil => simp [GoSlice.appendAll]
    | cons a rest => rw [GoSlice.appendAll_nil_cons]; simp

/-- C8: for a Feature node with a FeatureHeader sub-node that has a feature
line, whose children under Background, ScenarioDefinition and Rule are
Background, Scenario and Rule values, the children of the Feature are the first
Background (one entry at most), then the scenarios in order, then the rules in
order, each in the variant of its kind; their number is (1 if there is a
Background, else 0) + scenarios + rules; the slice is nil exactly when there is
none of them; and the result is the same whatever the order in which children
of different categories were added. -/
theorem transformNode_feature_children (t : AstBuilder) (node header : AstNode)
    (featureLine : Token) (bgs : List messages.Background) (scs : List messages.Scenario)
    (rls : List messages.Rule)
    (hrt : node.ruleType = .Feature)
    (hheader : node.getSingle .FeatureHeader = .node header)
    (hline : header.getToken .FeatureLine = some featureLine)
    (hbg : node.getItems .Background = bgs.map Obj.background)
    (hsc : node.getItems .ScenarioDefinition = scs.map Obj.scenario)
    (hrl : node.getItems .Rule = rls.map Obj.rule) :
    (∃ feat, t.transformNode node = .ok (.feature feat, none) ∧
      feat.Children.toList = bgs.head?.toList.map messages.FeatureChild.Background ++
        scs.map messages.FeatureChild.Scenario ++ rls.map messages.FeatureChild.Rule ∧
      feat.Children.toList.length =
        (if bgs = [] then 0 else 1) + scs.length + rls.length ∧
      (feat.Children = .nil ↔ bgs = [] ∧ scs = [] ∧ rls = [])) ∧
    (∀ (base : AstNode) (r1 r2 : RuleType) (a b : Obj), r1 ≠ r2 → node = (base.add r1 a).add r2 b →
      t.transformNode ((base.add r2 b).add r1 a) = t.transformNode node) := by
  constructor
  · refine ⟨{ Tags := astTags header, Location := astLocation featureLine,
              Language := featureLine.GherkinDialect, Keyword := featureLine.Keyword,
              Name := featureLine.Text,
              Description := (header.getSingle .Description).asString,
              Children :=
                (((match bgs.head? with
                   | some bg => GoSlice.nil.append (messages.FeatureChild.Background bg)
                   | none => GoSlice.nil).appendAll
                  (scs.map messages.FeatureChild.Scenario)).appendAll
                  (rls.map messages.FeatureChild.Rule)) }, ?_, ?_, ?_, ?_⟩
    · have hbg1 : (node.getSingle .Background).asBackground = bgs.head? := by
        rw [AstNode.getSingle_eq_head, hbg]
        cases bgs <;> rfl
      have hscs := forEach_map_ok
        (fun o => do let scenario ← o.mustScenario; pure (messages.FeatureChild.Scenario scenario))
        Obj.scenario messages.FeatureChild.Scenario (fun _ => rfl) scs
      have hrls := forEach_map_ok
        (fun o => do let rule ← o.mustRule; pure (messages.FeatureChild.Rule rule))
        Obj.rule messages.FeatureChild.Rule (fun _ => rfl) rls
      simp only [bind, Except.bind, pure, Except.pure] at hscs hrls
      unfold AstBuilder.transformNode
      rw [hrt]
      simp only [hheader, Obj.asNode, hline, hbg1, hsc, hrl, bind, Except.bind,
        pure, Except.pure, hscs, hrls]
    · simp only [GoSlice.appendAll_toList]
      cases bgs <;> rfl
    · simp only [GoSlice.appendAll_toList, List.length_append, List.length_map]
      cases bgs with
      | nil => simp [GoSlice.toList]
      | cons bg rest => simp [GoSlice.toList, GoSlice.append]
    · simp only [GoSlice.appendAll_eq_nil_iff, List.map_eq_nil_iff]
      cases bgs with
      | nil => simp
      | cons bg rest => simp [GoSlice.append]
  · intro base r1 r2 a b hne hnode
    subst hnode
    exact AstBuilder.transformNode_feature_congr t _ _ hrt hrt
      (fun rt => (AstNode.getItems_add_add_comm base r1 r2 a b hne rt).symm)

/-- Witness for C8: a Feature node to which a rule, a scenario, two backgrounds
and a second scenario were added in this order has the children: background b1,
scenarios s1 and s2, rule r. -/
theorem transformNode_feature_children_witness :
    ∃ feat, (NewAstBuilder "u").transformNode exampleFeatureMixed = .ok (.feature feat, none) ∧
      feat.Children.toList =
        [.Background (exampleBackground "b1"), .Scenario (exampleScenario "s1"),
         .Scenario (exampleScenario "s2"), .Rule (exampleRule "r")] ∧
      feat.Children.toList.length = 4 ∧
      (feat.Children = .nil ↔
        [exampleBackground "b1", exampleBackground "b2"] = [] ∧
        [exampleScenario "s1", exampleScenario "s2"] = [] ∧ [exampleRule "r"] = []) :=
  (transformNode_feature_children (NewAstBuilder "u") exampleFeatureMixed exampleFeatureHeader
    (exampleLeaf .FeatureLine 2 "Feature" "F")
    [exampleBackground "b1", exampleBackground "b2"]
    [exampleScenario "s1", exampleScenario "s2"] [exampleRule "r"] rfl rfl rfl rfl rfl rfl).1

/-! ## Comments and URI along a sequence of calls -/

theorem AstBuilder.addToCurrent_comments_uri (t t1 : AstBuilder) (rt : RuleType) (obj : Obj)
    (h : t.addToCurrent rt obj = .ok t1) : t1.comments = t.comments ∧ t1.uri = t.uri := by
  unfold AstBuilder.addToCurrent at h
  split at h
  · cases h; exact ⟨rfl, rfl⟩
  · cases h

theorem AstBuilder.apply_comments_uri (t t1 : AstBuilder) (op : Op)
    (h : t.apply op = .ok t1) :
    t1.comments = commentsAfter t.comments [op] ∧ t1.uri = t.uri := by
  cases op with
  | reset =>
    cases h
    exact ⟨rfl, rfl⟩
  | event e =>
    cases e with
    | startRule r =>
      cases h
      exact ⟨rfl, rfl⟩
    | build tok =>
      simp only [AstBuilder.apply, AstBuilder.handle, AstBuilder.Build, bind, Except.bind,
        pure, Except.pure] at h
      by_cases hc : tok.Typ = .Comment
      · simp only [hc, if_true] at h
        cases h
        simp [commentsAfter, hc]
      · simp only [hc, if_false] at h
        cases hadd : t.addToCurrent tok.Typ.RuleType (.token tok) with
        | error e => rw [hadd] at h; cases h
        | ok t2 =>
          rw [hadd] at h
          cases h
          simpa [commentsAfter, hc] using AstBuilder.addToCurrent_comments_uri _ _ _ _ hadd
    | endRule r =>
      simp only [AstBuilder.apply, AstBuilder.handle, AstBuilder.EndRule, AstBuilder.pop, bind,
        Except.bind, pure, Except.pure] at h
      cases hlast : t.stack.getLast? with
      | none => rw [hlast] at h; cases h
      | some node =>
        rw [hlast] at h
        simp only at h
        cases htr : AstBuilder.transformNode
            { stack := t.stack.dropLast, comments := t.comments, uri := t.uri } node with
        | error e => rw [htr] at h; cases h
        | ok res =>
          rw [htr] at h
          simp only at h
          cases hadd : AstBuilder.addToCurrent
              { stack := t.stack.dropLast, comments := t.comments, uri := t.uri }
              node.ruleType res.1 with
          | error e => rw [hadd] at h; cases h
          | ok t2 =>
            rw [hadd] at h
            cases h
            simpa [commentsAfter] using AstBuilder.addToCurrent_comments_uri _ _ _ _ hadd

theorem commentsAfter_cons (acc : List messages.Comment) (op : Op) (rest : List Op) :
    commentsAfter acc (op :: rest) = commentsAfter (commentsAfter acc [op]) rest := by
  cases op with
  | reset => rfl
  | event e => cases e <;> rfl

theorem AstBuilder.applyAll_comments_uri (ops : List Op) :
    ∀ (t t1 : AstBuilder), t.applyAll ops = .ok t1 →
      t1.comments = commentsAfter t.comments ops ∧ t1.uri = t.uri := by
  induction ops with
  | nil =>
    intro t t1 h
    cases h
    exact ⟨rfl, rfl⟩
  | cons op rest ih =>
    intro t t1 h
    simp only [AstBuilder.applyAll, bind, Except.bind] at h
    cases hop : t.apply op with
    | error e => rw [hop] at h; cases h
    | ok t2 =>
      rw [hop] at h
      obtain ⟨hc, hu⟩ := AstBuilder.apply_comments_uri _ _ _ hop
      obtain ⟨hc1, hu1⟩ := ih t2 t1 h
      rw [commentsAfter_cons, ← hc]
      exact ⟨hc1, hu1.trans hu⟩

/-- C9 as stated fails: when a GherkinDocument rule was already closed above
the root, closing a second one leaves GetGherkinDocument returning the first
Document, whose comments do not include the comment leaf accepted since. -/
theorem GetGherkinDocument_second_document_ignored :
    ∃ t t1 root docNode doc,
      (NewAstBuilder "u").applyAll exampleTwoDocuments = .ok t ∧
      t.stack = [root, docNode] ∧ docNode.ruleType = .GherkinDocument ∧
      t.EndRule .GherkinDocument = .ok (t1, true, none) ∧
      t1.GetGherkinDocument = .ok (some doc) ∧
      doc.Comments = [] ∧
      commentsAfter [] exampleTwoDocuments = [{ Location := ⟨1, 1⟩, Text := "# late" }] :=
  ⟨_, _, _, _, _, rfl, rfl, rfl, rfl, rfl, rfl, rfl⟩

/-- C9, amended: GetGherkinDocument returns none on the fresh builder and after
Reset. After any sequence of calls on the builder constructed with URI u that
leaves a GherkinDocument node directly above a root holding no value under the
GherkinDocument category, closing that node returns no error and
GetGherkinDocument then returns the Document with URI u, with the Comments of
the comment leaves accepted since construction or the last Reset, in arrival
order, and with the first value filed under Feature in the node when it is a
Feature, and no feature otherwise. -/
theorem GetGherkinDocument_after_first_document (u : String) (ops : List Op) (t : AstBuilder)
    (root docNode : AstNode) (r : RuleType)
    (hrun : (NewAstBuilder u).applyAll ops = .ok t)
    (hstack : t.stack = [root, docNode])
    (hrt : docNode.ruleType = .GherkinDocument)
    (hfirst : root.getItems .GherkinDocument = []) :
    (NewAstBuilder u).GetGherkinDocument = .ok none ∧
    (∀ s : AstBuilder, s.Reset.GetGherkinDocument = .ok none) ∧
    ∃ t1, t.EndRule r = .ok (t1, true, none) ∧
      t1.GetGherkinDocument = .ok (some
        { Uri := u, Comments := commentsAfter [] ops,
          Feature := (docNode.getItems .Feature).head?.bind Obj.asFeature }) := by
  refine ⟨rfl, fun s => rfl, ?_⟩
  obtain ⟨hc, hu⟩ := AstBuilder.applyAll_comments_uri ops _ _ hrun
  have hfeat : (docNode.getSingle .Feature).asFeature =
      (docNode.getItems .Feature).head?.bind Obj.asFeature := by
    rw [AstNode.getSingle_eq_head]
    cases docNode.getItems .Feature <;> rfl
  have htr : t.transformNode docNode = .ok (.document
      { Uri := u, Comments := commentsAfter [] ops,
        Feature := (docNode.getItems .Feature).head?.bind Obj.asFeature }, none) := by
    unfold AstBuilder.transformNode
    rw [hrt]
    simp only [hfeat, hc, hu, pure, Except.pure]
    rfl
  have hend := AstBuilder.EndRule_eq t [] root docNode r hstack _ _ htr
  refine ⟨_, hend, ?_⟩
  simp only [AstBuilder.GetGherkinDocument, AstBuilder.currentNode, List.nil_append,
    List.getLast?_singleton, deref, bind, Except.bind, pure, Except.pure, hrt]
  have hsingle : (root.add .GherkinDocument (.document
      { Uri := u, Comments := commentsAfter [] ops,
        Feature := (docNode.getItems .Feature).head?.bind Obj.asFeature })).getSingle
        .GherkinDocument = .document
      { Uri := u, Comments := commentsAfter [] ops,
        Feature := (docNode.getItems .Feature).head?.bind Obj.asFeature } := by
    rw [AstNode.getSingle_eq_head, AstNode.getItems_add_self, hfirst]
    rfl
  rw [hsingle]

/-- Witness for C9 (amended): after one comment leaf, a GherkinDocument rule is
opened above the fresh root and closed. -/
theorem GetGherkinDocument_after_first_document_witness :
    ∃ t t1, (NewAstBuilder "u").applyAll exampleOneDocument = .ok t ∧
      t.stack = [newAstNode .None, newAstNode .GherkinDocument] ∧
      t.EndRule .GherkinDocument = .ok (t1, true, none) ∧
      t1.GetGherkinDocument = .ok (some
        { Uri := "u", Comments := [{ Location := ⟨1, 1⟩, Text := "# first" }],
          Feature := none }) := by
  obtain ⟨t1, hend, hdoc⟩ :=
    (GetGherkinDocument_after_first_document "u" exampleOneDocument
      { stack := [newAstNode .None, newAstNode .GherkinDocument],
        comments := [{ Location := ⟨1, 1⟩, Text := "# first" }], uri := "u" }
      (newAstNode .None) (newAstNode .GherkinDocument) .GherkinDocument rfl rfl rfl rfl).2.2
  exact ⟨_, t1, rfl, rfl, hend, hdoc⟩

/-- A node with no generic sub-node under a category has no sub-node as first
child under it. -/
theorem AstNode.getSingle_asNode_none (a : AstNode) (rt : RuleType)
    (h : ∀ o ∈ a.getItems rt, o.asNode = none) : (a.getSingle rt).asNode = none := by
  rw [AstNode.getSingle_eq_head]
  cases hitems : a.getItems rt with
  | nil => rfl
  | cons o rest => exact h o (by rw [hitems]; simp)

/-- C10: a Feature node whose first child under FeatureHeader is not a generic
sub-node (in particular a node with no FeatureHeader sub-node), or whose
FeatureHeader sub-node has no feature line, is transformed into the nil value
with no error, whatever its other children; likewise a Rule node with respect
to RuleHeader and the rule line. -/
theorem transformNode_without_header (t : AstBuilder) (node : AstNode)
    (h : (node.ruleType = .Feature ∧
            ((node.getSingle .FeatureHeader).asNode = none ∨
              ∃ header, node.getSingle .FeatureHeader = .node header ∧
                header.getToken .FeatureLine = none)) ∨
         (node.ruleType = .Rule ∧
            ((node.getSingle .RuleHeader).asNode = none ∨
              ∃ header, node.getSingle .RuleHeader = .node header ∧
                header.getToken .RuleLine = none))) :
    t.transformNode node = .ok (.nil, none) := by
  rcases h with ⟨hrt, hno | ⟨header, hheader, hline⟩⟩ | ⟨hrt, hno | ⟨header, hheader, hline⟩⟩
  · unfold AstBuilder.transformNode
    rw [hrt]
    simp only [hno]
    rfl
  · unfold AstBuilder.transformNode
    rw [hrt]
    simp only [hheader, Obj.asNode, hline]
    rfl
  · unfold AstBuilder.transformNode
    rw [hrt]
    simp only [hno]
    rfl
  · unfold AstBuilder.transformNode
    rw [hrt]
    simp only [hheader, Obj.asNode, hline]
    rfl

/-- Witness for C10: a Feature node without header that holds a background, a
scenario and a rule, and a Rule node whose header has no rule line. -/
theorem transformNode_without_header_witness :
    (NewAstBuilder "u").transformNode exampleFeatureNoHeader = .ok (.nil, none) ∧
    (NewAstBuilder "u").transformNode exampleRuleNoLine = .ok (.nil, none) :=
  ⟨transformNode_without_header _ exampleFeatureNoHeader (Or.inl ⟨rfl, Or.inl rfl⟩),
   transformNode_without_header _ exampleRuleNoLine
     (Or.inr ⟨rfl, Or.inr ⟨newAstNode .RuleHeader, rfl, rfl⟩⟩)⟩

/-! ## Totality of the transformer on the nodes that hold what it reads -/

theorem forEach_ok_of_all {β γ : Type} (f : Obj → Except Panic β) (g : β → γ)
    (p : Obj → Bool) (hp : ∀ o, p o = true → ∃ b, f o = .ok b) (l : List Obj)
    (hall : l.all p = true) :
    ∃ bs, forEach (fun o => do let b ← f o; pure (g b)) l = .ok bs := by
  induction l with
  | nil => exact ⟨[], rfl⟩
  | cons o rest ih =>
    simp only [List.all_cons, Bool.and_eq_true] at hall
    obtain ⟨b, hb⟩ := hp o hall.1
    obtain ⟨bs, hbs⟩ := ih hall.2
    refine ⟨g b :: bs, ?_⟩
    simp only [forEach, bind, Except.bind, pure, Except.pure] at hbs ⊢
    simp only [hb, hbs]

theorem Obj.mustScenario_ok (o : Obj) (h : o.isScenario = true) :
    ∃ v, o.mustScenario = .ok v := by
  cases o <;> simp [Obj.isScenario] at h
  exact ⟨_, rfl⟩

theorem Obj.mustRule_ok (o : Obj) (h : o.isRule = true) : ∃ v, o.mustRule = .ok v := by
  cases o <;> simp [Obj.isRule] at h
  exact ⟨_, rfl⟩

theorem AstBuilder.transformNode_ok_of_transformable (t : AstBuilder) (node : AstNode)
    (h : transformable node = true) : ∃ v err, t.transformNode node = .ok (v, err) := by
  unfold transformable at h
  unfold AstBuilder.transformNode
  cases hrt : node.ruleType <;> simp only [hrt] at h ⊢
  case Step =>
    simp only [Bool.and_eq_true, Option.isSome_iff_exists] at h
    obtain ⟨⟨stepLine, hline⟩, harg⟩ := h
    simp only [hline, deref, bind, Except.bind, pure, Except.pure]
    cases hdt : node.getSingle .DataTable <;> simp only [hdt] at harg ⊢ <;>
      first
        | exact ⟨_, _, rfl⟩
        | exact absurd harg (by decide)
        | skip
    cases hds : node.getSingle .DocString <;> simp only [hds] at harg ⊢ <;>
      first
        | exact ⟨_, _, rfl⟩
        | exact absurd harg (by decide)
  case DocString =>
    simp only [Option.isSome_iff_exists] at h
    obtain ⟨sep, hsep⟩ := h
    simp only [hsep, deref, bind, Except.bind, pure, Except.pure]
    exact ⟨_, _, rfl⟩
  case DataTable =>
    have hrows : (astTableRows node).1 ≠ [] := by
      intro hnil
      rw [astTableRows_fst, List.map_eq_nil_iff] at hnil
      rw [hnil] at h
      exact absurd h (by decide)
    cases hr : astTableRows node with
    | mk rows err =>
      cases rows with
      | nil => rw [hr] at hrows; exact absurd rfl hrows
      | cons r0 rest => exact ⟨_, _, rfl⟩
  case Background =>
    simp only [Option.isSome_iff_exists] at h
    obtain ⟨line, hline⟩ := h
    simp only [hline, deref, bind, Except.bind, pure, Except.pure]
    exact ⟨_, _, rfl⟩
  case ScenarioDefinition =>
    cases hnode : (node.getSingle .Scenario).asNode with
    | none => rw [hnode] at h; exact absurd h (by decide)
    | some scenarioNode =>
      simp only [hnode, Option.isSome_iff_exists] at h
      obtain ⟨line, hline⟩ := h
      simp only [hline, deref, bind, Except.bind, pure, Except.pure]
      exact ⟨_, _, rfl⟩
  case ExamplesDefinition =>
    cases hnode : (node.getSingle .Examples).asNode with
    | none => rw [hnode] at h; exact absurd h (by decide)
    | some examplesNode =>
      simp only [hnode, Bool.and_eq_true, Option.isSome_iff_exists] at h
      obtain ⟨⟨line, hline⟩, htable⟩ := h
      simp only [hline, deref, bind, Except.bind, pure, Except.pure]
      cases ht : examplesNode.getSingle .ExamplesTable <;> simp only [ht] at htable ⊢ <;>
        first
          | exact ⟨_, _, rfl⟩
          | exact absurd htable (by decide)
          | skip
      rename_i rows
      cases rows with
      | nil => exact absurd htable (by decide)
      | cons r0 rest => exact ⟨_, _, rfl⟩
  case Feature =>
    cases hheader : (node.getSingle .FeatureHeader).asNode with
    | none => exact ⟨_, _, rfl⟩
    | some header =>
      simp only [hheader] at h ⊢
      cases hline : header.getToken .FeatureLine with
      | none => exact ⟨_, _, rfl⟩
      | some featureLine =>
        simp only [hline, Bool.and_eq_true] at h ⊢
        obtain ⟨scs, hscs⟩ := forEach_ok_of_all Obj.mustScenario messages.FeatureChild.Scenario
          Obj.isScenario Obj.mustScenario_ok _ h.1
        obtain ⟨rls, hrls⟩ := forEach_ok_of_all Obj.mustRule messages.FeatureChild.Rule
          Obj.isRule Obj.mustRule_ok _ h.2
        simp only [bind, Except.bind, pure, Except.pure] at hscs hrls ⊢
        simp only [hscs, hrls]
        exact ⟨_, _, rfl⟩
  case Rule =>
    cases hheader : (node.getSingle .RuleHeader).asNode with
    | none => exact ⟨_, _, rfl⟩
    | some header =>
      simp only [hheader] at h ⊢
      cases hline : header.getToken .RuleLine with
      | none => exact ⟨_, _, rfl⟩
      | some ruleLine =>
        simp only [hline] at h ⊢
        obtain ⟨scs, hscs⟩ := forEach_ok_of_all Obj.mustScenario messages.RuleChild.Scenario
          Obj.isScenario Obj.mustScenario_ok _ h
        simp only [bind, Except.bind, pure, Except.pure] at hscs ⊢
        simp only [hscs]
        exact ⟨_, _, rfl⟩
  all_goals exact ⟨_, _, rfl⟩

/-- C11 as stated fails: on a Step node with a step line that holds a
DocString value under the DataTable category, the unchecked type assertion
faults and the transformer returns nothing. -/
theorem transformNode_faults_on_wrong_argument :
    exampleStepWrongArgument.ruleType = .Step ∧
    (exampleStepWrongArgument.getToken .StepLine).isSome = true ∧
    (NewAstBuilder "u").transformNode exampleStepWrongArgument = .error Panic.typeAssertion ∧
    ¬ ∃ v err, (NewAstBuilder "u").transformNode exampleStepWrongArgument = .ok (v, err) := by
  refine ⟨rfl, rfl, rfl, ?_⟩
  rintro ⟨v, err, h⟩
  have h2 : (NewAstBuilder "u").transformNode exampleStepWrongArgument =
      .error Panic.typeAssertion := rfl
  rw [h2] at h
  cases h

/-- C11, amended: the transformer is a function of the node, the comment list
and the URI (it does not depend on the stack and returns no new builder
state), and on every node that holds what its rule category reads
(transformable) it returns a value, possibly nil, with an optional error,
without faulting. -/
theorem transformNode_total_on_transformable (t : AstBuilder) (node : AstNode)
    (h : transformable node = true) :
    (∃ v err, t.transformNode node = .ok (v, err)) ∧
    (∀ t1 : AstBuilder, t1.comments = t.comments → t1.uri = t.uri →
      t1.transformNode node = t.transformNode node) :=
  ⟨AstBuilder.transformNode_ok_of_transformable t node h,
   fun t1 hc hu => AstBuilder.transformNode_congr t1 t node hc hu⟩

/-- Witness for C11 (amended): the DataTable node with rows of 2, 2 and 3 cells
is transformable; the transformer returns on it, whatever the stack. -/
theorem transformNode_total_on_transformable_witness :
    transformable exampleTable223 = true ∧
    (∃ v err, exampleBuilderTable.transformNode exampleTable223 = .ok (v, err)) ∧
    (NewAstBuilder "u").transformNode exampleTable223 =
      exampleBuilderTable.transformNode exampleTable223 :=
  ⟨rfl, (transformNode_total_on_transformable exampleBuilderTable exampleTable223 rfl).1,
   (transformNode_total_on_transformable exampleBuilderTable exampleTable223 rfl).2
     (NewAstBuilder "u") rfl rfl⟩

/-- A ScenarioDefinition node whose first child under Scenario is not a generic
sub-node faults with a nil dereference. -/
theorem AstBuilder.transformNode_scenarioDefinition_nil (t : AstBuilder) (node : AstNode)
    (hrt : node.ruleType = .ScenarioDefinition)
    (hno : (node.getSingle .Scenario).asNode = none) :
    t.transformNode node = .error Panic.nilDereference := by
  unfold AstBuilder.transformNode
  rw [hrt]
  simp only [hno, deref, bind, Except.bind]

/-- C12 (the code at the failing inputs): a ScenarioDefinition node with no
child under Scenario, and one whose child under Scenario is a leaf, are not
transformed into nil without error: the transformer faults with a nil
dereference, and so does EndRule when it closes such a node. -/
theorem transformNode_scenarioDefinition_without_scenario_faults :
    (NewAstBuilder "u").transformNode (newAstNode .ScenarioDefinition) =
      .error Panic.nilDereference ∧
    (NewAstBuilder "u").transformNode
      ((newAstNode .ScenarioDefinition).add .Scenario
        (.token (exampleLeaf .ScenarioLine 3 "Scenario" "S"))) =
      .error Panic.nilDereference ∧
    ((NewAstBuilder "u").run
      [.startRule .ScenarioDefinition, .endRule .ScenarioDefinition]).toOption.isNone = true ∧
    (NewAstBuilder "u").transformNode (newAstNode .Feature) = .ok (.nil, none) :=
  ⟨rfl, rfl, rfl, rfl⟩

/-! ## The only error is the table error -/

theorem ensureCellCount_eq_none_iff (toks : List Token) :
    ensureCellCount (toks.map rowOfToken) = none ↔ rectangular toks := by
  match toks with
  | [] => simp [ensureCellCount, rectangular]
  | [a] => simp [ensureCellCount, rectangular]
  | a :: b :: rest =>
    simp only [List.map_cons, ensureCellCount_cons_cons]
    rw [← List.map_cons, ← List.map_cons, List.find?_map]
    simp only [Option.map_eq_none', List.find?_eq_none, Function.comp, rowOfToken_cells_length,
      decide_eq_true_eq, not_not]
    constructor
    · intro h x hx y hy
      rw [← h x hx, ← h y hy]
    · intro h x hx
      exact h a (by simp) x hx

theorem AstBuilder.transformNode_err (t : AstBuilder) (node : AstNode) (v : Obj)
    (err : Option ParseError) (h : t.transformNode node = .ok (v, err)) :
    err = if node.ruleType = .DataTable ∨ node.ruleType = .ExamplesTable
      then (astTableRows node).2 else none := by
  unfold AstBuilder.transformNode at h
  cases hrt : node.ruleType <;> simp only [hrt] at h ⊢ <;>
    simp only [bind, Except.bind, pure, Except.pure, deref] at h
  all_goals first
    | (simp only [Except.ok.injEq, Prod.mk.injEq] at h; simp [h.2])
    | ((repeat' split at h) <;> simp_all)

theorem AstBuilder.handle_err (t t1 : AstBuilder) (ev : Event) (b : Bool)
    (err : Option ParseError) (h : t.handle ev = .ok (t1, b, err)) (herr : err.isSome = true) :
    ∃ r node, ev = .endRule r ∧ t.stack.getLast? = some node ∧
      (node.ruleType = .DataTable ∨ node.ruleType = .ExamplesTable) ∧
      err = (astTableRows node).2 := by
  cases ev with
  | build tok =>
    simp only [AstBuilder.handle, AstBuilder.Build, bind, Except.bind, pure, Except.pure] at h
    split at h
    · cases h; cases herr
    · split at h
      · cases h
      · cases h; cases herr
  | startRule r => cases h; cases herr
  | endRule r =>
    simp only [AstBuilder.handle, AstBuilder.EndRule, AstBuilder.pop, bind, Except.bind, pure,
      Except.pure] at h
    cases hlast : t.stack.getLast? with
    | none => rw [hlast] at h; cases h
    | some node =>
      rw [hlast] at h
      simp only at h
      cases htr : AstBuilder.transformNode
          { stack := t.stack.dropLast, comments := t.comments, uri := t.uri } node with
      | error e => rw [htr] at h; cases h
      | ok res =>
        obtain ⟨v, err1⟩ := res
        rw [htr] at h
        simp only at h
        split at h
        · cases h
        · cases h
          have herr1 := AstBuilder.transformNode_err _ _ _ _ htr
          by_cases hc : node.ruleType = .DataTable ∨ node.ruleType = .ExamplesTable
          · rw [if_pos hc] at herr1
            exact ⟨r, node, rfl, rfl, hc, herr1⟩
          · rw [if_neg hc] at herr1
            rw [herr1] at herr
            cases herr

/-- C13: when the transformation of a node returns, it returns an error only
for a DataTable or ExamplesTable node, and for such a node exactly when its
table-row leaves are not rectangular. An event of the parser returns an error
only when it is an EndRule that closes a DataTable or ExamplesTable node whose
leaves are not rectangular; Build, StartRule and the EndRule of any other node
return none. -/
theorem transformNode_only_table_error (t : AstBuilder) (node : AstNode) (v : Obj)
    (err : Option ParseError) (h : t.transformNode node = .ok (v, err)) :
    (err.isSome = true → node.ruleType = .DataTable ∨ node.ruleType = .ExamplesTable) ∧
    (node.ruleType = .DataTable ∨ node.ruleType = .ExamplesTable →
      (err.isSome = true ↔ ¬ rectangular (node.getTokens .TableRow))) ∧
    (∀ (s s1 : AstBuilder) (ev : Event) (b : Bool) (e : Option ParseError),
      s.handle ev = .ok (s1, b, e) → e.isSome = true →
      ∃ r top, ev = .endRule r ∧ s.stack.getLast? = some top ∧
        (top.ruleType = .DataTable ∨ top.ruleType = .ExamplesTable) ∧
        ¬ rectangular (top.getTokens .TableRow)) := by
  have herr := AstBuilder.transformNode_err t node v err h
  have hrect : ∀ n : AstNode, ((astTableRows n).2.isSome = true ↔
      ¬ rectangular (n.getTokens .TableRow)) := by
    intro n
    rw [astTableRows_snd, ← ensureCellCount_eq_none_iff]
    cases ensureCellCount ((n.getTokens .TableRow).map rowOfToken) <;> simp
  refine ⟨?_, ?_, ?_⟩
  · intro hsome
    by_contra hc
    rw [if_neg hc] at herr
    rw [herr] at hsome
    cases hsome
  · intro hc
    rw [if_pos hc] at herr
    rw [herr]
    exact hrect node
  · intro s s1 ev b e hev he
    obtain ⟨r, top, hr, htop, hc, hetop⟩ := AstBuilder.handle_err s s1 ev b e hev he
    refine ⟨r, top, hr, htop, hc, ?_⟩
    rw [hetop] at he
    exact (hrect top).mp he

/-- Witness for C13: in the run of a document whose DataTable has rows of 2, 2
and 3 cells, the EndRule that closes the DataTable returns the error, and the
five later EndRule calls (Step, Scenario, ScenarioDefinition, Feature,
GherkinDocument) and every other event return none. -/
theorem transformNode_only_table_error_witness :
    (∃ v, exampleBuilderTable.transformNode exampleTable223 = .ok (v,
        some { msg := "inconsistent cell count within the table", loc := ⟨6, 7⟩ }) ∧
      ¬ rectangular (exampleTable223.getTokens .TableRow)) ∧
    (((NewAstBuilder "u").run exampleIrregularEvents).toOption.map fun p => p.2) =
      some (List.replicate 14 (true, none) ++
        [(true, some { msg := "inconsistent cell count within the table", loc := ⟨6, 7⟩ })] ++
        List.replicate 5 (true, none)) :=
  ⟨⟨_, rfl, ((transformNode_only_table_error exampleBuilderTable exampleTable223 _ _ rfl).2.1
      (Or.inl rfl)).mp rfl⟩, rfl⟩

/-! ## The depth of the stack -/

theorem List.exists_eq_append_singleton {α : Type} (l : List α) (h : 1 ≤ l.length) :
    ∃ init last, l = init ++ [last] := by
  have hne : l ≠ [] := by
    intro hnil
    rw [hnil] at h
    simp at h
  exact ⟨l.dropLast, l.getLast hne, (List.dropLast_append_getLast hne).symm⟩

theorem head?_append_singleton_map {α β : Type} (f : α → β) (l : List α) (a b : α)
    (hab : f a = f b) : (l ++ [a]).head?.map f = (l ++ [b]).head?.map f := by
  cases l with
  | nil => simp [hab]
  | cons x rest => rfl

/-- One event on a stack of depth d at least 1 (at least 2 for EndRule, whose
transformation returns): the event returns and the depth moves by +1, -1 or 0;
the category of the bottom node is kept. -/
theorem AstBuilder.handle_depth (t : AstBuilder) (ev : Event)
    (hd : 1 ≤ t.stack.length)
    (hend : ∀ r, ev = .endRule r → 2 ≤ t.stack.length)
    (htr : ∀ r node t1, ev = .endRule r → t.pop = .ok (node, t1) →
      ∃ res, t1.transformNode node = .ok res) :
    ∃ t1 res, t.handle ev = .ok (t1, res) ∧
      t1.stack.length + countEnd [ev] = t.stack.length + countStart [ev] ∧
      t1.stack.head?.map AstNode.ruleType = t.stack.head?.map AstNode.ruleType := by
  obtain ⟨init, top, hstack⟩ := List.exists_eq_append_singleton t.stack hd
  cases ev with
  | startRule r =>
    refine ⟨t.push (newAstNode r), (true, none), rfl, ?_, ?_⟩
    · simp [AstBuilder.push, countEnd, countStart]
    · simp only [AstBuilder.push, hstack]
      cases init <;> rfl
  | build tok =>
    by_cases hc : tok.Typ = .Comment
    · refine ⟨{ t with comments := t.comments ++
        [{ Location := astLocation tok, Text := tok.Text }] }, (true, none), ?_, ?_, rfl⟩
      · simp [AstBuilder.handle, AstBuilder.Build, hc, pure, Except.pure]
      · simp [countEnd, countStart]
    · refine ⟨{ stack := init ++ [top.add tok.Typ.RuleType (.token tok)],
                comments := t.comments, uri := t.uri }, (true, none), ?_, ?_, ?_⟩
      · simp [AstBuilder.handle, AstBuilder.Build, hc, AstBuilder.addToCurrent,
          AstBuilder.currentNode, hstack, getLast?_append_single, bind, Except.bind, pure,
          Except.pure]
      · simp [hstack, countEnd, countStart]
      · rw [hstack]
        exact head?_append_singleton_map _ _ _ _ rfl
  | endRule r =>
    have h2 := hend r rfl
    have hinit : 1 ≤ init.length := by
      rw [hstack] at h2
      simp at h2
      omega
    obtain ⟨below, parent, hbelow⟩ := List.exists_eq_append_singleton init hinit
    have hstack2 : t.stack = below ++ [parent, top] := by
      rw [hstack, hbelow]
      simp
    have hpop : t.pop = .ok (top, { t with stack := below ++ [parent] }) := by
      simp [AstBuilder.pop, hstack2, getLast?_append_pair, dropLast_append_pair, pure,
        Except.pure]
    obtain ⟨⟨v, err⟩, hres⟩ := htr r top _ rfl hpop
    have hres1 : t.transformNode top = .ok (v, err) := by
      rw [← hres]
      exact AstBuilder.transformNode_congr _ _ _ rfl rfl
    refine ⟨_, _, AstBuilder.EndRule_eq t below parent top r hstack2 v err hres1, ?_, ?_⟩
    · simp [hstack2, countEnd, countStart]
    · rw [hstack2]
      cases below <;> rfl

theorem countStart_cons (ev : Event) (l : List Event) :
    countStart (ev :: l) = countStart [ev] + countStart l := by
  cases ev <;> simp only [countStart] <;> omega

theorem countEnd_cons (ev : Event) (l : List Event) :
    countEnd (ev :: l) = countEnd [ev] + countEnd l := by
  cases ev <;> simp only [countEnd] <;> omega

theorem transformsReturn_take (evs : List Event) :
    ∀ (t : AstBuilder) (k : Nat), transformsReturn t evs → transformsReturn t (evs.take k) := by
  induction evs with
  | nil => intro t k h; simpa using h
  | cons ev rest ih =>
    intro t k h
    cases k with
    | zero => exact trivial
    | succ k => exact ⟨h.1, fun t1 res hev => ih t1 k (h.2 t1 res hev)⟩

/-- A run on a stack of depth at least 1 that never closes more rules than the
depth allows and in which no transformation faults: the run returns, the depth
is the initial depth plus the StartRule events minus the EndRule events, and
the category of the bottom node is kept. -/
theorem AstBuilder.run_depth (evs : List Event) :
    ∀ (t : AstBuilder), 1 ≤ t.stack.length →
      (∀ k, k ≤ evs.length →
        countEnd (evs.take k) + 1 ≤ countStart (evs.take k) + t.stack.length) →
      transformsReturn t evs →
      ∃ t1 res, t.run evs = .ok (t1, res) ∧
        t1.stack.length + countEnd evs = t.stack.length + countStart evs ∧
        t1.stack.head?.map AstNode.ruleType = t.stack.head?.map AstNode.ruleType := by
  induction evs with
  | nil =>
    intro t _ _ _
    exact ⟨t, [], rfl, rfl, rfl⟩
  | cons ev rest ih =>
    intro t hd hbalance htrans
    have h1 := hbalance 1 (by simp)
    simp only [List.take_succ_cons, List.take_zero] at h1
    have hend : ∀ r, ev = .endRule r → 2 ≤ t.stack.length := by
      intro r hr
      subst hr
      simp [countEnd, countStart] at h1
      omega
    obtain ⟨t1, res, hev, hlen, hbottom⟩ := AstBuilder.handle_depth t ev hd hend htrans.1
    have hd1 : 1 ≤ t1.stack.length := by omega
    have hrest1 : ∀ k, k ≤ rest.length →
        countEnd (rest.take k) + 1 ≤ countStart (rest.take k) + t1.stack.length := by
      intro k hk
      have := hbalance (k + 1) (by simp; omega)
      rw [List.take_succ_cons, countEnd_cons, countStart_cons] at this
      omega
    obtain ⟨t2, results, hrun, hlen2, hbottom2⟩ := ih t1 hd1 hrest1 (htrans.2 t1 res hev)
    refine ⟨t2, res :: results, ?_, ?_, hbottom2.trans hbottom⟩
    · simp only [AstBuilder.run, bind, Except.bind, pure, Except.pure, hev, hrun]
    · rw [countEnd_cons, countStart_cons]
      omega

/-- A run that returns has no transformation fault. -/
theorem transformsReturn_of_run_ok (evs : List Event) :
    ∀ (t : AstBuilder), (∃ r, t.run evs = .ok r) → transformsReturn t evs := by
  induction evs with
  | nil => intro t _; exact trivial
  | cons ev rest ih =>
    intro t hrun
    obtain ⟨r, hrun⟩ := hrun
    simp only [AstBuilder.run, bind, Except.bind, pure, Except.pure] at hrun
    cases hev : t.handle ev with
    | error e => rw [hev] at hrun; cases hrun
    | ok p =>
      rw [hev] at hrun
      simp only at hrun
      constructor
      · intro r1 node t1 hr hpop
        subst hr
        simp only [AstBuilder.handle, AstBuilder.EndRule, bind, Except.bind, hpop] at hev
        cases htr : t1.transformNode node with
        | error e => rw [htr] at hev; cases hev
        | ok res => exact ⟨res, rfl⟩
      · intro t1 res hev1
        rw [hev] at hev1
        cases hev1
        cases hrest : t1.run rest with
        | error e => rw [hrest] at hrun; cases hrun
        | ok r2 => exact ih t1 ⟨r2, hrest⟩

/-- C14: from a fresh or reset builder, for a sequence of events in which
every prefix has at least as many StartRule as EndRule events and no
transformation faults, every prefix of the run returns, with stack depth
1 + StartRule events - EndRule events, at least 1, and a bottom node of
category None; a balanced sequence ends at depth 1. -/
theorem stack_depth_invariant (t0 : AstBuilder) (evs : List Event)
    (hfresh : (∃ u, t0 = NewAstBuilder u) ∨ (∃ s : AstBuilder, t0 = s.Reset))
    (hbalance : ∀ k, k ≤ evs.length → countEnd (evs.take k) ≤ countStart (evs.take k))
    (htrans : transformsReturn t0 evs) :
    (∀ k, k ≤ evs.length → ∃ tk resk, t0.run (evs.take k) = .ok (tk, resk) ∧
      tk.stack.length + countEnd (evs.take k) = 1 + countStart (evs.take k) ∧
      1 ≤ tk.stack.length ∧
      tk.stack.head?.map AstNode.ruleType = some .None) ∧
    (countStart evs = countEnd evs →
      ∃ t1 res, t0.run evs = .ok (t1, res) ∧ t1.stack.length = 1) := by
  have hstack : t0.stack = [newAstNode .None] := by
    rcases hfresh with ⟨u, rfl⟩ | ⟨s, rfl⟩ <;> rfl
  have hall : ∀ k, k ≤ evs.length → ∃ tk resk, t0.run (evs.take k) = .ok (tk, resk) ∧
      tk.stack.length + countEnd (evs.take k) = 1 + countStart (evs.take k) ∧
      1 ≤ tk.stack.length ∧
      tk.stack.head?.map AstNode.ruleType = some .None := by
    intro k hk
    have hpre : ∀ j, j ≤ (evs.take k).length →
        countEnd ((evs.take k).take j) + 1 ≤
          countStart ((evs.take k).take j) + t0.stack.length := by
      intro j hj
      have hjk : j ≤ k := by
        rw [List.length_take] at hj
        omega
      rw [List.take_take, Nat.min_eq_left hjk, hstack]
      have := hbalance j (by omega)
      simp only [List.length_singleton]
      omega
    obtain ⟨tk, resk, hrun, hlen, hbottom⟩ :=
      AstBuilder.run_depth (evs.take k) t0 (by rw [hstack]; simp) hpre
        (transformsReturn_take evs t0 k htrans)
    rw [hstack] at hlen hbottom
    simp only [List.length_singleton] at hlen
    have := hbalance k hk
    exact ⟨tk, resk, hrun, by omega, by omega, hbottom⟩
  refine ⟨hall, fun hbal => ?_⟩
  obtain ⟨t1, res, hrun, hlen, -, -⟩ := hall evs.length (Nat.le_refl _)
  rw [List.take_length] at hrun hlen
  exact ⟨t1, res, hrun, by omega⟩

/-- Witness for C14: the balanced run of 18 events of the feature with a
Background and two comments returns and ends at depth 1. -/
theorem stack_depth_invariant_witness :
    (∀ k, k ≤ exampleCommentEvents.length →
      countEnd (exampleCommentEvents.take k) ≤ countStart (exampleCommentEvents.take k)) ∧
    countStart exampleCommentEvents = 6 ∧ countEnd exampleCommentEvents = 6 ∧
    ∃ t1 res, (NewAstBuilder "u").run exampleCommentEvents = .ok (t1, res) ∧
      t1.stack.length = 1 :=
  ⟨by decide, by decide, by decide,
   (stack_depth_invariant (NewAstBuilder "u") exampleCommentEvents (Or.inl ⟨"u", rfl⟩)
      (by decide) (transformsReturn_of_run_ok _ _ ⟨_, rfl⟩)).2 (by decide)⟩

/-- C15: for every builder state s reached from NewAstBuilder(u) by a sequence
of Build, StartRule, EndRule and Reset calls, Reset(s) has no comments, a stack
of one node of category None without children, and the URI u: it is the state
NewAstBuilder(u); and Reset(Reset(s)) = Reset(s). -/
theorem Reset_restores_initial (u : String) (ops : List Op) (s : AstBuilder)
    (hrun : (NewAstBuilder u).applyAll ops = .ok s) :
    s.Reset.comments = [] ∧
    s.Reset.stack = [newAstNode .None] ∧
    (newAstNode .None).ruleType = .None ∧
    (newAstNode .None).subNodes = [] ∧
    (∀ rt, (newAstNode .None).getItems rt = []) ∧
    s.Reset.uri = u ∧
    s.Reset = NewAstBuilder u ∧
    s.Reset.Reset = s.Reset := by
  have hu : s.uri = u := (AstBuilder.applyAll_comments_uri ops _ _ hrun).2
  refine ⟨rfl, rfl, rfl, rfl, fun rt => rfl, hu, ?_, rfl⟩
  simp only [AstBuilder.Reset, NewAstBuilder, AstBuilder.push, hu]

/-- Witness for C15: the state after a comment leaf and an opened
GherkinDocument rule is reset to the state NewAstBuilder produces. -/
theorem Reset_restores_initial_witness :
    ∃ s, (NewAstBuilder "u").applyAll exampleOneDocument = .ok s ∧
      s.comments = [{ Location := ⟨1, 1⟩, Text := "# first" }] ∧ s.stack.length = 2 ∧
      s.Reset = NewAstBuilder "u" ∧ s.Reset.Reset = s.Reset :=
  ⟨{ stack := [newAstNode .None, newAstNode .GherkinDocument],
     comments := [{ Location := ⟨1, 1⟩, Text := "# first" }], uri := "u" },
   rfl, rfl, rfl,
   (Reset_restores_initial "u" exampleOneDocument _ rfl).2.2.2.2.2.2.1,
   (Reset_restores_initial "u" exampleOneDocument _ rfl).2.2.2.2.2.2.2⟩

/-- C16 as stated fails: a Step node with a step line that holds a DocString
value under the DataTable category is not transformed (the unchecked type
assertion faults), and the Step of a step line on line 2^32 + 5 is on line 5,
not on the line of the leaf. -/
theorem transformNode_step_faults_or_moves :
    (exampleStepWrongArgument.ruleType = .Step ∧
      (exampleStepWrongArgument.getToken .StepLine).isSome = true ∧
      (NewAstBuilder "u").transformNode exampleStepWrongArgument =
        .error Panic.typeAssertion) ∧
    (exampleFarStep.ruleType = .Step ∧
      (exampleFarStep.getToken .StepLine).map (fun tok => tok.Location.Line) =
        some 4294967301 ∧
      ∃ step, (NewAstBuilder "u").transformNode exampleFarStep = .ok (.step step, none) ∧
        step.Location.Line = 5) :=
  ⟨⟨rfl, rfl, rfl⟩, ⟨rfl, by decide, _, rfl, rfl⟩⟩

/-- C16, amended: for a Step node with a step line, the transformation returns
exactly when the first value filed under DataTable is a DataTable value, or no
value (or nil) is filed under DataTable and the first value filed under
DocString is a DocString value or there is none; it then returns no error and
the Step whose location is the uint32 conversion of the location of the step
line (that location itself when it is in the uint32 range), whose keyword and
text are those of the step line, and whose argument is that DataTable (also
when a DocString is filed), else that DocString, else none. -/
theorem transformNode_step (t : AstBuilder) (node : AstNode) (stepLine : Token)
    (hrt : node.ruleType = .Step)
    (hline : node.getToken .StepLine = some stepLine) :
    (∀ dataTable, node.getSingle .DataTable = .dataTable dataTable →
      t.transformNode node = .ok (.step
        { Location := { Line := uint32 stepLine.Location.Line,
                        Column := uint32 stepLine.Location.Column },
          Keyword := stepLine.Keyword, Text := stepLine.Text,
          Argument := some (.DataTable dataTable) }, none)) ∧
    (node.getSingle .DataTable = .nil →
      ∀ docString, node.getSingle .DocString = .docString docString →
      t.transformNode node = .ok (.step
        { Location := { Line := uint32 stepLine.Location.Line,
                        Column := uint32 stepLine.Location.Column },
          Keyword := stepLine.Keyword, Text := stepLine.Text,
          Argument := some (.DocString docString) }, none)) ∧
    (node.getSingle .DataTable = .nil → node.getSingle .DocString = .nil →
      t.transformNode node = .ok (.step
        { Location := { Line := uint32 stepLine.Location.Line,
                        Column := uint32 stepLine.Location.Column },
          Keyword := stepLine.Keyword, Text := stepLine.Text,
          Argument := none }, none)) ∧
    (∀ v err, t.transformNode node = .ok (v, err) →
      (∃ dataTable, node.getSingle .DataTable = .dataTable dataTable) ∨
      (node.getSingle .DataTable = .nil ∧
        ((∃ docString, node.getSingle .DocString = .docString docString) ∨
          node.getSingle .DocString = .nil))) ∧
    (∀ rt, node.getSingle rt = ((node.getItems rt).head?).getD Obj.nil) ∧
    (InUint32 stepLine.Location.Line →
      ((uint32 stepLine.Location.Line : Nat) : Int) = stepLine.Location.Line) ∧
    (InUint32 stepLine.Location.Column →
      ((uint32 stepLine.Location.Column : Nat) : Int) = stepLine.Location.Column) := by
  refine ⟨?_, ?_, ?_, ?_, fun rt => AstNode.getSingle_eq_head node rt,
    fun h => uint32_of_inRange _ h, fun h => uint32_of_inRange _ h⟩
  · intro dataTable hdt
    unfold AstBuilder.transformNode
    rw [hrt]
    simp only [hline, deref, bind, Except.bind, pure, Except.pure, hdt]
    rfl
  · intro hdt docString hds
    unfold AstBuilder.transformNode
    rw [hrt]
    simp only [hline, deref, bind, Except.bind, pure, Except.pure, hdt, hds]
    rfl
  · intro hdt hds
    unfold AstBuilder.transformNode
    rw [hrt]
    simp only [hline, deref, bind, Except.bind, pure, Except.pure, hdt, hds]
    rfl
  · intro v err h
    unfold AstBuilder.transformNode at h
    rw [hrt] at h
    simp only [hline, deref, bind, Except.bind, pure, Except.pure] at h
    cases hdt : node.getSingle .DataTable <;> simp only [hdt] at h <;>
      first
        | exact Or.inl ⟨_, rfl⟩
        | cases h
        | skip
    refine Or.inr ⟨rfl, ?_⟩
    cases hds : node.getSingle .DocString <;> simp only [hds] at h <;>
      first
        | exact Or.inl ⟨_, rfl⟩
        | exact Or.inr rfl
        | cases h

/-- Witness for C16 (amended): a Step node holding a DocString and two
DataTables gets the first DataTable as argument. -/
theorem transformNode_step_witness :
    exampleStepBothArguments.getItems .DocString = [.docString (exampleDocString "d")] ∧
    (NewAstBuilder "u").transformNode exampleStepBothArguments = .ok (.step
      { Location := ⟨4, 1⟩, Keyword := "Given ", Text := "a",
        Argument := some (.DataTable (exampleDataTable "t1")) }, none) :=
  ⟨rfl, (transformNode_step (NewAstBuilder "u") exampleStepBothArguments
    (exampleLeaf .StepLine 4 "Given " "a") rfl rfl).1 (exampleDataTable "t1") rfl⟩

/-- C17 as stated fails: for a tag-line leaf on line 2^32 + 5 the Tag is on
line 5, not on the line of the leaf. -/
theorem astTags_line_not_leaf_line :
    ∃ tagsNode, exampleFarTagNode.getSingle .Tags = .node tagsNode ∧
      (tagsNode.getTokens .TagLine).map (fun tok => tok.Location.Line) = [4294967301] ∧
      (astTags exampleFarTagNode).map (fun tag => (tag.Location.Line : Int)) = [5] :=
  ⟨_, rfl, by decide, by decide⟩

theorem AstBuilder.transformNode_scenario_tags (t : AstBuilder) (node : AstNode) (v : Obj)
    (err : Option ParseError) (hrt : node.ruleType = .ScenarioDefinition)
    (h : t.transformNode node = .ok (v, err)) :
    ∃ sc, v = .scenario sc ∧ sc.Tags = astTags node := by
  unfold AstBuilder.transformNode at h
  rw [hrt] at h
  simp only [bind, Except.bind, pure, Except.pure, deref] at h
  (repeat' split at h) <;> simp_all
  exact ⟨_, h.1.symm, rfl⟩

theorem AstBuilder.transformNode_examples_tags (t : AstBuilder) (node : AstNode) (v : Obj)
    (err : Option ParseError) (hrt : node.ruleType = .ExamplesDefinition)
    (h : t.transformNode node = .ok (v, err)) :
    ∃ ex, v = .examples ex ∧ ex.Tags = astTags node := by
  unfold AstBuilder.transformNode at h
  rw [hrt] at h
  simp only [bind, Except.bind, pure, Except.pure, deref] at h
  (repeat' split at h) <;> simp_all
  all_goals exact ⟨_, h.1.symm, rfl⟩

/-- C17, amended: astTags returns no tag, without fault, when the first child
of the node under Tags is not a generic sub-node, in particular when the node
has no generic sub-node under Tags; when that first child is a sub-node, it
returns, for its tag-line leaves in order and the items of each leaf in order,
the Tag with the uint32 conversions of the line of the leaf and of the column
of the item, which are that line and column when these are in the uint32
range, and with the text of the item as name. The tags of the Scenario
(Examples) that a ScenarioDefinition (ExamplesDefinition) node is transformed
into are those of astTags on that wrapping node. -/
theorem astTags_spec (node : AstNode) :
    ((∀ o ∈ node.getItems .Tags, o.asNode = none) → astTags node = []) ∧
    ((node.getSingle .Tags).asNode = none → astTags node = []) ∧
    (∀ tagsNode, node.getSingle .Tags = .node tagsNode →
      astTags node = (tagsNode.getTokens .TagLine).flatMap fun token =>
        token.Items.map (tagOfItem token)) ∧
    (∀ (token : Token) (item : LineSpan),
      tagOfItem token item =
        { Location := { Line := uint32 token.Location.Line, Column := uint32 item.Column },
          Name := item.Text }) ∧
    (∀ (token : Token) (item : LineSpan),
      (InUint32 token.Location.Line →
        ((tagOfItem token item).Location.Line : Int) = token.Location.Line) ∧
      (InUint32 item.Column → ((tagOfItem token item).Location.Column : Int) = item.Column)) ∧
    (∀ (t : AstBuilder) (v : Obj) (err : Option ParseError),
      node.ruleType = .ScenarioDefinition → t.transformNode node = .ok (v, err) →
      ∃ sc, v = .scenario sc ∧ sc.Tags = astTags node) ∧
    (∀ (t : AstBuilder) (v : Obj) (err : Option ParseError),
      node.ruleType = .ExamplesDefinition → t.transformNode node = .ok (v, err) →
      ∃ ex, v = .examples ex ∧ ex.Tags = astTags node) := by
  have hnone : (node.getSingle .Tags).asNode = none → astTags node = [] := by
    intro h
    unfold astTags
    rw [h]
  refine ⟨fun h => hnone (AstNode.getSingle_asNode_none node .Tags h), hnone, ?_,
    fun _ _ => rfl, ?_,
    fun t v err hrt h => AstBuilder.transformNode_scenario_tags t node v err hrt h,
    fun t v err hrt h => AstBuilder.transformNode_examples_tags t node v err hrt h⟩
  · intro tagsNode h
    unfold astTags
    rw [h]
    rfl
  · intro token item
    exact ⟨fun h => uint32_of_inRange _ h, fun h => uint32_of_inRange _ h⟩

/-- Witness for C17 (amended): a ScenarioDefinition with the tags "@a" and "@b"
on the wrapper and "@inner" inside the Scenario sub-node gives the scenario the
tags "@a" and "@b"; an ExamplesDefinition with "@inner" inside the Examples
sub-node only gives the examples no tag. -/
theorem astTags_spec_witness :
    (astTags exampleTaggedScenario).map (fun tag => tag.Name) = ["@a", "@b"] ∧
    (astTags exampleTaggedScenario).map (fun tag => tag.Location) = [⟨2, 1⟩, ⟨2, 11⟩] ∧
    (∃ sc, (NewAstBuilder "u").transformNode exampleTaggedScenario = .ok (.scenario sc, none) ∧
      sc.Tags = astTags exampleTaggedScenario) ∧
    astTags exampleTaggedExamples = [] ∧
    (∃ ex, (NewAstBuilder "u").transformNode exampleTaggedExamples = .ok (.examples ex, none) ∧
      ex.Tags = []) := by
  refine ⟨by decide, by decide, ?_, (astTags_spec exampleTaggedExamples).2.1 rfl, ⟨_, rfl, rfl⟩⟩
  obtain ⟨sc, hv, htags⟩ := (astTags_spec exampleTaggedScenario).2.2.2.2.2.1
    (NewAstBuilder "u") _ _ rfl rfl
  exact ⟨sc, by rw [← hv]; rfl, htags⟩

/-- A Feature node that has a FeatureHeader with a feature line and no child
under Background, ScenarioDefinition and Rule is transformed, with no error,
into a Feature whose children slice is nil: nothing is appended to the slice
declared with var. -/
theorem AstBuilder.transformNode_feature_children_nil (t : AstBuilder)
    (node header : AstNode) (featureLine : Token)
    (hrt : node.ruleType = .Feature)
    (hheader : node.getSingle .FeatureHeader = .node header)
    (hline : header.getToken .FeatureLine = some featureLine)
    (hbg : node.getItems .Background = [])
    (hsc : node.getItems .ScenarioDefinition = [])
    (hrl : node.getItems .Rule = []) :
    ∃ feat, t.transformNode node = .ok (.feature feat, none) ∧
      feat.Children = .nil ∧ feat.Children.toList = [] ∧
      feat.Name = featureLine.Text ∧ feat.Location = astLocation featureLine := by
  have hbg1 : node.getSingle .Background = .nil := by
    rw [AstNode.getSingle_eq_head, hbg]
    rfl
  refine ⟨{ Tags := astTags header, Location := astLocation featureLine,
            Language := featureLine.GherkinDialect, Keyword := featureLine.Keyword,
            Name := featureLine.Text,
            Description := (header.getSingle .Description).asString,
            Children := .nil }, ?_, rfl, rfl, rfl, rfl⟩
  unfold AstBuilder.transformNode
  rw [hrt]
  simp only [hheader, Obj.asNode, hline, hbg1, hsc, hrl, Obj.asBackground, forEach, bind,
    Except.bind, pure, Except.pure]
  rfl

/-- C18 (the code at the failing input): the Feature node that holds only its
header with a feature line is transformed, with no error, into a Feature whose
children slice is the nil slice, not an allocated empty slice; with one
scenario the slice is allocated. The sequences that the helpers build (the
steps of a Background here) are allocated also when they are empty. -/
theorem transformNode_feature_children_is_nil :
    (∃ feat, (NewAstBuilder "u").transformNode
        ((newAstNode .Feature).add .FeatureHeader (.node exampleFeatureHeader)) =
        .ok (.feature feat, none) ∧
      feat.Children = .nil ∧ feat.Children ≠ .mk [] ∧ feat.Name = "F") ∧
    (∃ feat, (NewAstBuilder "u").transformNode
        (((newAstNode .Feature).add .FeatureHeader (.node exampleFeatureHeader)).add
          .ScenarioDefinition (.scenario (exampleScenario "s1"))) =
        .ok (.feature feat, none) ∧
      feat.Children = .mk [.Scenario (exampleScenario "s1")]) ∧
    (∃ bg, (NewAstBuilder "u").transformNode
        ((newAstNode .Background).add .BackgroundLine
          (.token (exampleLeaf .BackgroundLine 3 "Background" ""))) =
        .ok (.background bg, none) ∧ bg.Steps = []) :=
  ⟨⟨_, rfl, rfl, by decide, rfl⟩, ⟨_, rfl, rfl⟩, ⟨_, rfl, rfl⟩⟩

/-! ## The wrappers Messages returns without output stream -/

theorem rangeLoop_append {α β : Type} (f : List β → α → Except Panic (List β))
    (g : α → List β) (l : List α) :
    ∀ (r : List β), (∀ r1, ∀ a ∈ l, f r1 a = .ok (r1 ++ g a)) →
      rangeLoop f r l = .ok (r ++ l.flatMap g) := by
  induction l with
  | nil => intro r _; simp [rangeLoop, pure, Except.pure]
  | cons a rest ih =>
    intro r hf
    simp only [rangeLoop, bind, Except.bind, hf r a (by simp)]
    rw [ih (r ++ g a) (fun r1 b hb => hf r1 b (by simp [hb]))]
    simp

theorem fakeStep_eq (env : Collaborators) (json : Bool) (err : Option String)
    (pickleId : String) (result : List messages.Wrapper) (p : Nat × messages.PickleStep)
    (hloc : env.containsFailed p.2.Text = true → p.2.Locations ≠ []) :
    fakeStep env false json err pickleId result p = .ok (result ++
      [.TestStepStarted pickleId (p.1 % 4294967296),
       .TestStepFinished pickleId (p.1 % 4294967296) (stepOutcome env p.2).1
         (stepOutcome env p.2).2]) := by
  unfold fakeStep stepOutcome
  by_cases hc : env.containsFailed p.2.Text = true
  · cases hl : p.2.Locations with
    | nil => exact absurd hl (hloc hc)
    | cons loc rest =>
      simp [hc, hl, handleMessage, bind, Except.bind, pure, Except.pure]
  · simp [hc, handleMessage, bind, Except.bind, pure, Except.pure]

theorem fakePickle_eq (env : Collaborators) (json : Bool) (err : Option String)
    (result : List messages.Wrapper) (pickle : messages.Pickle)
    (hloc : ∀ step ∈ pickle.Steps, env.containsFailed step.Text = true → step.Locations ≠ []) :
    fakePickle env false json err result pickle = .ok (result ++ fakeResultsOf env pickle) := by
  unfold fakePickle fakeResultsOf
  have hsteps := rangeLoop_append (fakeStep env false json err pickle.Id)
    (fun p => [.TestStepStarted pickle.Id (p.1 % 4294967296),
       .TestStepFinished pickle.Id (p.1 % 4294967296) (stepOutcome env p.2).1
         (stepOutcome env p.2).2]) pickle.Steps.enum
    (result ++ [.TestCaseStarted pickle.Id])
    (fun r1 p hp => fakeStep_eq env json err pickle.Id r1 p
      (hloc p.2 (by
        obtain ⟨i, st⟩ := p
        exact (List.mem_enum hp).2 ▸ List.getElem_mem _)))
  simp only [handleMessage, bind, Except.bind, pure, Except.pure, Bool.false_eq_true, if_false,
    hsteps]
  simp

theorem flatMap_singleton_eq_map {α β : Type} (f : α → β) (l : List α) :
    l.flatMap (fun a => [f a]) = l.map f := by
  induction l with
  | nil => rfl
  | cons a rest ih => simp [List.flatMap_cons, ih]

theorem processSource_eq (env : Collaborators) (language : String)
    (includeSource includeGherkinDocument includePickles json fakeResults : Bool)
    (result : List messages.Wrapper) (err : Option String)
    (source : messages.Source) (doc : messages.GherkinDocument)
    (hparse : env.parse source.Data source.Uri language = (some doc, ParserError.none))
    (hloc : ∀ pickle ∈ env.Pickles (sentDocument includeGherkinDocument source doc),
      ∀ step ∈ pickle.Steps, env.containsFailed step.Text = true → step.Locations ≠ []) :
    processSource env language includeSource includeGherkinDocument includePickles false json
      fakeResults (result, err) source =
      .ok ((result ++ wrappersOf env includeSource includeGherkinDocument includePickles
        fakeResults source doc, err), none) := by
  have hpickles : ∀ r : List messages.Wrapper,
      rangeLoop (fun r pickle =>
        (pure (handleMessage env false json err r (.Pickle pickle)).1 :
          Except Panic (List messages.Wrapper))) r
        (env.Pickles (sentDocument includeGherkinDocument source doc)) =
      .ok (r ++ (env.Pickles (sentDocument includeGherkinDocument source doc)).map .Pickle) := by
    intro r
    have := rangeLoop_append (fun r pickle =>
        (pure (handleMessage env false json err r (.Pickle pickle)).1 :
          Except Panic (List messages.Wrapper))) (fun pickle => [.Pickle pickle])
        (env.Pickles (sentDocument includeGherkinDocument source doc)) r
        (fun r1 a _ => by simp [handleMessage, pure, Except.pure])
    rw [this, flatMap_singleton_eq_map]
  have hfake : ∀ r : List messages.Wrapper,
      rangeLoop (fakePickle env false json err) r
        (env.Pickles (sentDocument includeGherkinDocument source doc)) =
      .ok (r ++ (env.Pickles (sentDocument includeGherkinDocument source doc)).flatMap
        (fakeResultsOf env)) :=
    fun r => rangeLoop_append _ _ _ r
      (fun r1 pickle hp => fakePickle_eq env json err r1 pickle (hloc pickle hp))
  unfold processSource wrappersOf
  cases includeSource <;> cases includeGherkinDocument <;> cases includePickles <;>
    cases fakeResults <;>
    simp only [sentDocument, Bool.false_eq_true, if_false, if_true, hparse, handleMessage, deref,
      bind, Except.bind, pure, Except.pure] at hpickles hfake ⊢ <;>
    simp [hpickles, hfake]

theorem fakeResultsOf_length (env : Collaborators) (pickle : messages.Pickle) :
    (fakeResultsOf env pickle).length = 2 + 2 * pickle.Steps.length := by
  unfold fakeResultsOf
  have h : ∀ (l : List (Nat × messages.PickleStep)),
      (l.flatMap (fun p =>
        [messages.Wrapper.TestStepStarted pickle.Id (p.1 % 4294967296),
         messages.Wrapper.TestStepFinished pickle.Id (p.1 % 4294967296) (stepOutcome env p.2).1
           (stepOutcome env p.2).2])).length = 2 * l.length := by
    intro l
    induction l with
    | nil => rfl
    | cons a rest ih =>
      simp only [List.flatMap_cons, List.length_append, ih, List.length_cons, List.length_nil]
      omega
  simp only [List.length_append, h, List.enum_length, List.length_cons, List.length_nil]
  omega

theorem fakeResults_length (env : Collaborators) (pickles : List messages.Pickle) :
    (pickles.flatMap (fakeResultsOf env)).length =
      (pickles.map fun pickle => 2 + 2 * pickle.Steps.length).sum := by
  induction pickles with
  | nil => rfl
  | cons a rest ih =>
    simp only [List.flatMap_cons, List.length_append, ih, fakeResultsOf_length, List.map_cons,
      List.sum_cons]

theorem rangeLoop_cons_ok {σ α : Type} (f : σ → α → Except Panic σ) (s s1 : σ) (a : α)
    (rest : List α) (h : f s a = .ok s1) :
    rangeLoop f s (a :: rest) = rangeLoop f s1 rest := by
  simp only [rangeLoop, bind, Except.bind, h]

theorem streamLoop_eq (env : Collaborators) (language : String)
    (includeSource includeGherkinDocument includePickles json fakeResults : Bool)
    (docOf : messages.Source → messages.GherkinDocument) (ws : List messages.Wrapper) :
    ∀ (state : List messages.Wrapper × Option String),
      (∀ source, messages.Wrapper.Source source ∈ ws →
        cleanSource env language includeGherkinDocument source (docOf source)) →
      streamLoop env language includeSource includeGherkinDocument includePickles false json
        fakeResults state ws =
        .ok (state.1 ++ ws.flatMap (wrappersOfRead env includeSource includeGherkinDocument
          includePickles fakeResults docOf), state.2) := by
  induction ws with
  | nil => intro state _; simp [streamLoop, rangeLoop, pure, Except.pure]
  | cons w rest ih =>
    intro state hclean
    obtain ⟨result, err⟩ := state
    have hrest := fun st => ih st (fun source hs => hclean source (by simp [hs]))
    unfold streamLoop at hrest ⊢
    cases w with
    | Source source =>
      obtain ⟨hparse, hloc⟩ := hclean source (by simp)
      rw [rangeLoop_cons_ok _ _ (result ++ wrappersOf env includeSource includeGherkinDocument
        includePickles fakeResults source (docOf source), err) _ _ (by
          simp only [bind, Except.bind, pure, Except.pure,
            processSource_eq env language includeSource includeGherkinDocument includePickles
              json fakeResults result err source (docOf source) hparse hloc]), hrest]
      simp [wrappersOfRead]
    | _ =>
      rw [rangeLoop_cons_ok _ _ (result, err) _ _ rfl, hrest]
      simp [wrappersOfRead]

theorem pathsLoop_eq (env : Collaborators) (language : String)
    (includeSource includeGherkinDocument includePickles json fakeResults : Bool)
    (dataOf : String → String) (docOf : String → messages.GherkinDocument)
    (paths : List String) :
    ∀ (state : List messages.Wrapper × Option String),
      (∀ path ∈ paths, env.readFile path = .ok (dataOf path) ∧
        cleanSource env language includeGherkinDocument
          { Uri := path, Data := dataOf path } (docOf path)) →
      pathsLoop env language includeSource includeGherkinDocument includePickles false json
        fakeResults state paths =
        .ok (state.1 ++ paths.flatMap (fun path =>
          wrappersOf env includeSource includeGherkinDocument includePickles fakeResults
            { Uri := path, Data := dataOf path } (docOf path)), state.2) := by
  induction paths with
  | nil => intro state _; simp [pathsLoop, pure, Except.pure]
  | cons path rest ih =>
    intro state hclean
    obtain ⟨result, err⟩ := state
    obtain ⟨hread, hparse, hloc⟩ := hclean path (by simp)
    have hrest := fun st => ih st (fun p hp => hclean p (by simp [hp]))
    simp only [pathsLoop, hread, bind, Except.bind, pure, Except.pure,
      processSource_eq env language includeSource includeGherkinDocument includePickles json
        fakeResults result err { Uri := path, Data := dataOf path } (docOf path) hparse hloc,
      hrest]
    simp

/-- C19 as stated fails: when the pickle compiler returns a step whose text
contains "failed" and that has no location, Messages with fakeResults faults on
Locations[0] (index out of range) for a source that parses without error, and
returns no wrappers. -/
theorem Messages_faults_without_location :
    exampleFailedCollaborators.parse exampleSource.Data exampleSource.Uri "en" =
      (some { Uri := "features/test.feature", Feature := none, Comments := [] },
        ParserError.none) ∧
    exampleFailedCollaborators.Pickles
        { Uri := "features/test.feature", Feature := none, Comments := [] } =
      [{ Id := "1", Steps := [{ Text := "it failed", Locations := [] }] }] ∧
    exampleFailedCollaborators.containsFailed "it failed" = true ∧
    Messages exampleFailedCollaborators [] [.Source exampleSource] "en" true true true
      false false true = .error Panic.indexOutOfRange :=
  ⟨rfl, rfl, by decide, rfl⟩

/-- C19, amended: without output stream, for a source that the parser turns
into a document without error and whose pickle steps with a text containing
"failed" have a location, and whatever the four flags (and the json flag),
processSource appends to the result, in this order, the source (if
includeSource), the document (if includeGherkinDocument), the pickles of the
document (if includePickles) and, if fakeResults, for each pickle
TestCaseStarted, TestStepStarted and TestStepFinished per step, and
TestCaseFinished; their number is 1 + 1 + n + the sum of 2 + 2 * steps over the
pickles, each term when its flag is set. Messages returns, with no error, these
wrappers for the one source of a stream, the concatenation of those of the
Source wrappers of any stream of such sources (other wrappers give nothing),
and, with paths, the concatenation of those of the files in the order of the
paths. -/
theorem Messages_wrappers (env : Collaborators) (language : String)
    (includeSource includeGherkinDocument includePickles json fakeResults : Bool)
    (source : messages.Source) (doc : messages.GherkinDocument)
    (hparse : env.parse source.Data source.Uri language = (some doc, ParserError.none))
    (hloc : ∀ pickle ∈ env.Pickles (sentDocument includeGherkinDocument source doc),
      ∀ step ∈ pickle.Steps, env.containsFailed step.Text = true → step.Locations ≠ []) :
    Messages env [] [.Source source] language includeSource includeGherkinDocument
      includePickles false json fakeResults =
      .ok (wrappersOf env includeSource includeGherkinDocument includePickles fakeResults
        source doc, none) ∧
    (∀ (result : List messages.Wrapper) (err : Option String),
      processSource env language includeSource includeGherkinDocument includePickles false json
        fakeResults (result, err) source =
        .ok ((result ++ wrappersOf env includeSource includeGherkinDocument includePickles
          fakeResults source doc, err), none)) ∧
    (wrappersOf env includeSource includeGherkinDocument includePickles fakeResults
        source doc).length =
      (if includeSource then 1 else 0) + (if includeGherkinDocument then 1 else 0) +
      (if includePickles then
        (env.Pickles (sentDocument includeGherkinDocument source doc)).length else 0) +
      (if fakeResults then
        ((env.Pickles (sentDocument includeGherkinDocument source doc)).map
          fun pickle => 2 + 2 * pickle.Steps.length).sum else 0) ∧
    (∀ (docOf : messages.Source → messages.GherkinDocument) (ws : List messages.Wrapper),
      (∀ s, messages.Wrapper.Source s ∈ ws →
        cleanSource env language includeGherkinDocument s (docOf s)) →
      Messages env [] ws language includeSource includeGherkinDocument includePickles false
        json fakeResults =
        .ok (ws.flatMap (wrappersOfRead env includeSource includeGherkinDocument
          includePickles fakeResults docOf), none)) ∧
    (∀ (dataOf : String → String) (docOf : String → messages.GherkinDocument)
      (paths : List String) (ws : List messages.Wrapper), paths ≠ [] →
      (∀ path ∈ paths, env.readFile path = .ok (dataOf path) ∧
        cleanSource env language includeGherkinDocument
          { Uri := path, Data := dataOf path } (docOf path)) →
      Messages env paths ws language includeSource includeGherkinDocument includePickles false
        json fakeResults =
        .ok (paths.flatMap (fun path =>
          wrappersOf env includeSource includeGherkinDocument includePickles fakeResults
            { Uri := path, Data := dataOf path } (docOf path)), none)) := by
  have hps := fun result err => processSource_eq env language includeSource
    includeGherkinDocument includePickles json fakeResults result err source doc hparse hloc
  refine ⟨?_, hps, ?_, ?_, ?_⟩
  · simp only [Messages, streamLoop, rangeLoop, bind, Except.bind, pure, Except.pure, hps,
      List.nil_append]
  · unfold wrappersOf
    simp only [List.length_append]
    cases includeSource <;> cases includeGherkinDocument <;> cases includePickles <;>
      cases fakeResults <;>
      simp only [Bool.false_eq_true, if_false, if_true, List.length_nil, List.length_singleton,
        List.length_map, fakeResults_length]
  · intro docOf ws hclean
    have h := streamLoop_eq env language includeSource includeGherkinDocument includePickles
      json fakeResults docOf ws ([], none) hclean
    simpa [Messages] using h
  · intro dataOf docOf paths ws hne hclean
    have h := pathsLoop_eq env language includeSource includeGherkinDocument includePickles
      json fakeResults dataOf docOf paths ([], none) hclean
    cases paths with
    | nil => exact absurd rfl hne
    | cons path rest => simpa [Messages] using h

theorem examplePickles_locations :
    ∀ pickle ∈ examplePickles, ∀ step ∈ pickle.Steps,
      exampleCollaborators.containsFailed step.Text = true → step.Locations ≠ [] := by
  decide

/-- Witness for C19 (amended): the source of the test with two one-step
scenarios and all four flags set gives 12 wrappers and no error; a stream with
that source, a wrapper that is not a source and a second source gives 24, and
so do the two files read from their paths. -/
theorem Messages_wrappers_witness :
    (∃ wrappers, Messages exampleCollaborators [] [.Source exampleSource] "en" true true true
        false false true = .ok (wrappers, none) ∧
      wrappers.length = 12 ∧
      wrappers = wrappersOf exampleCollaborators true true true true exampleSource
        { Uri := "features/test.feature", Feature := none, Comments := [] }) ∧
    (∃ wrappers, Messages exampleCollaborators [] exampleStream "en" true true true
        false false true = .ok (wrappers, none) ∧ wrappers.length = 24) ∧
    (∃ wrappers, Messages exampleFileCollaborators
        ["features/test.feature", "features/other.feature"] [] "en" true true true
        false false true = .ok (wrappers, none) ∧ wrappers.length = 24) :=
  ⟨⟨_, (Messages_wrappers exampleCollaborators "en" true true true false true exampleSource
        { Uri := "features/test.feature", Feature := none, Comments := [] } rfl
        examplePickles_locations).1,
    by decide, rfl⟩,
   ⟨_, (Messages_wrappers exampleCollaborators "en" true true true false true exampleSource
        { Uri := "features/test.feature", Feature := none, Comments := [] } rfl
        examplePickles_locations).2.2.2.1
        (fun s => { Uri := s.Uri, Feature := none, Comments := [] }) exampleStream
        (fun _ _ => ⟨rfl, examplePickles_locations⟩),
    by decide⟩,
   ⟨_, (Messages_wrappers exampleFileCollaborators "en" true true true false true exampleSource
        { Uri := "features/test.feature", Feature := none, Comments := [] } rfl
        examplePickles_locations).2.2.2.2
        (fun path => if path = "features/test.feature" then exampleSource.Data
          else "Feature: Other\n")
        (fun path => { Uri := path, Feature := none, Comments := [] })
        ["features/test.feature", "features/other.feature"] [] (by decide)
        (by
          intro path hp
          simp only [List.mem_cons, List.mem_singleton, List.not_mem_nil, or_false] at hp
          rcases hp with rfl | rfl
          · exact ⟨rfl, rfl, examplePickles_locations⟩
          · exact ⟨rfl, rfl, examplePickles_locations⟩),
    by decide⟩⟩

/-- C20 as stated fails: when the first child under the category is not a leaf
and a later one is, getTokens is not empty and getToken is nil, not the first
element of getTokens. -/
theorem getToken_not_head_of_getTokens :
    exampleMixedNode.getTokens .Other = [exampleLine 2 "a"] ∧
    exampleMixedNode.getToken .Other = none ∧
    exampleMixedNode.getToken .Other ≠ (exampleMixedNode.getTokens .Other).head? := by
  decide

/-- C20, amended: getTokens(tt) is the sequence, in order, of the children
filed under the rule category of tt that are leaves (empty when there is none);
getToken(tt) is the first child filed under that category when it is a leaf,
and nil otherwise; it is the first element of getTokens(tt) when the first
child under the category is a leaf, in particular when all the children under
it are leaves, and it is nil when getTokens(tt) is empty. -/
theorem getToken_getTokens (a : AstNode) (tt : TokenType) :
    a.getTokens tt = (a.getItems tt.RuleType).filterMap Obj.asToken ∧
    ((∀ o ∈ a.getItems tt.RuleType, o.asToken = none) → a.getTokens tt = []) ∧
    a.getToken tt = (a.getItems tt.RuleType).head?.bind Obj.asToken ∧
    ((∀ o, (a.getItems tt.RuleType).head? = some o → (o.asToken).isSome = true) →
      a.getToken tt = (a.getTokens tt).head?) ∧
    ((∀ o ∈ a.getItems tt.RuleType, (o.asToken).isSome = true) →
      a.getToken tt = (a.getTokens tt).head? ∧
      (a.getTokens tt).map Obj.token = a.getItems tt.RuleType) ∧
    (a.getTokens tt = [] → a.getToken tt = none) := by
  have hget : a.getToken tt = (a.getItems tt.RuleType).head?.bind Obj.asToken := by
    unfold AstNode.getToken
    rw [AstNode.getSingle_eq_head]
    cases a.getItems tt.RuleType <;> rfl
  have hhead : (∀ o, (a.getItems tt.RuleType).head? = some o → (o.asToken).isSome = true) →
      a.getToken tt = (a.getTokens tt).head? := by
    intro h
    rw [hget]
    unfold AstNode.getTokens
    cases hitems : a.getItems tt.RuleType with
    | nil => rfl
    | cons o rest =>
      have ho := h o (by rw [hitems]; rfl)
      cases hto : o.asToken with
      | none => rw [hto] at ho; cases ho
      | some tok => simp [List.filterMap_cons, hto]
  refine ⟨rfl, ?_, hget, hhead, ?_, ?_⟩
  · intro h
    unfold AstNode.getTokens
    exact List.filterMap_eq_nil_iff.mpr h
  · intro h
    refine ⟨hhead (fun o ho => h o (List.mem_of_mem_head? ho)), ?_⟩
    unfold AstNode.getTokens
    generalize a.getItems tt.RuleType = items at h
    induction items with
    | nil => rfl
    | cons o rest ih =>
      have ho := h o (by simp)
      cases o <;> simp [Obj.asToken] at ho
      simp only [List.filterMap_cons, Obj.asToken, List.map_cons]
      rw [ih (fun x hx => h x (by simp [hx]))]
  · intro h
    rw [hget]
    unfold AstNode.getTokens at h
    cases hitems : a.getItems tt.RuleType with
    | nil => rfl
    | cons o rest =>
      rw [hitems] at h
      cases hto : o.asToken with
      | none => simp [hto]
      | some tok => simp [List.filterMap_cons, hto] at h

/-- Witness for C20 (amended): on the Description node with the line leaves
"a", "", "b", "", "", whose children under Other are all leaves, getToken is
the first element of getTokens. -/
theorem getToken_getTokens_witness :
    (exampleDescription.getTokens .Other).length = 5 ∧
    exampleDescription.getToken .Other = some (exampleLine 2 "a") ∧
    exampleDescription.getToken .Other = (exampleDescription.getTokens .Other).head? :=
  ⟨by decide, by decide,
   ((getToken_getTokens exampleDescription .Other).2.2.2.2.1 (by decide)).1⟩

end Gherkin
